import Mathlib

set_option maxRecDepth 100000

/-!
Verification development for the LuoguScraper repository.

The embedding covers the two components the specification describes:

* the record fetcher `get_records` of src/luogu_scraper.py: per-page JSON
  decoding with the embedded-script fallback, the date cutoff, the
  Accepted-status filter, pagination and error handling; and
* the report builder `analyze_to_excel` of src/analyze_records.py:
  per-user deduplication, the detail table and the summary table.

Decoded page bodies are modelled by the dynamic value type JVal, which
plays the role of the objects returned by json.loads; the Python value
None and the JSON value null are both modelled by JVal.null, matching
the fact that dict.get collapses a missing key and a null value when the
default is None.  Machine-level details (network transport, pandas and
openpyxl internals, the local time zone) are abstracted: timestamps are
integers, local time is taken as UTC, and a page response is a value of
the PageResp type.
-/

/-- Dynamic value: result of json.loads, also used for the Python values the
fetcher manipulates.  JSON numbers are restricted to integers, which covers
every field the scraper reads (status, score, submitTime, count, perPage). -/
inductive JVal where
  | null
  | bool (b : Bool)
  | num (n : Int)
  | str (s : String)
  | arr (xs : List JVal)
  | obj (kvs : List (String × JVal))

/-- Lookup in an association list where the LAST binding wins, matching the
behaviour of a Python dict built by json.loads when keys repeat. -/
def assocLast (kvs : List (String × JVal)) (key : String) : Option JVal :=
  match kvs with
  | [] => none
  | (k, v) :: rest =>
    match assocLast rest key with
    | some w => some w
    | none => if k = key then some v else none

/-- Python dict.get with a default: a missing key yields the default, a key
bound to null yields null (Python None). -/
def pyGetD (kvs : List (String × JVal)) (key : String) (dflt : JVal) : JVal :=
  match assocLast kvs key with
  | some v => v
  | none => dflt

/-- Python truthiness of a decoded value, as used by the tests
`if not current_data` and `if not records` in the source. -/
def truthy : JVal → Bool
  | .null => false
  | .bool b => b
  | .num n => n != 0
  | .str s => !s.data.isEmpty
  | .arr xs => !xs.isEmpty
  | .obj kvs => !kvs.isEmpty

/-- Decimal digit test on a character. -/
def isDigitCh (c : Char) : Bool := 48 ≤ c.toNat && c.toNat ≤ 57

/-- Value of a hexadecimal digit. -/
def hexVal (c : Char) : Option Nat :=
  let n := c.toNat
  if 48 ≤ n && n ≤ 57 then some (n - 48)
  else if 65 ≤ n && n ≤ 70 then some (n - 55)
  else if 97 ≤ n && n ≤ 102 then some (n - 87)
  else none

/-- Numeric value of a digit string. -/
def digitsToNat (ds : List Char) : Nat :=
  ds.foldl (fun a c => a * 10 + (c.toNat - 48)) 0

/-- JSON whitespace skipping. -/
def skipWs : List Char → List Char
  | c :: cs =>
    if c = ' ' || c = '\t' || c = '\n' || c = '\r' then skipWs cs else c :: cs
  | [] => []

/-- Unsigned JSON integer token: digits without a redundant leading zero and
not followed by a fraction or exponent (fractional numbers are outside the
number domain of the embedding). -/
def parseUIntTok (cs : List Char) : Option (Nat × List Char) :=
  let ds := cs.takeWhile isDigitCh
  let rest := cs.dropWhile isDigitCh
  if ds.isEmpty then none
  else if 1 < ds.length && ds.head? = some '0' then none
  else
    match rest with
    | c :: _ => if c = '.' || c = 'e' || c = 'E' then none else some (digitsToNat ds, rest)
    | [] => some (digitsToNat ds, [])

/-- Signed JSON integer token. -/
def parseIntTok (cs : List Char) : Option (Int × List Char) :=
  match cs with
  | '-' :: rest =>
    match parseUIntTok rest with
    | some (n, r) => some (-(n : Int), r)
    | none => none
  | _ =>
    match parseUIntTok cs with
    | some (n, r) => some ((n : Int), r)
    | none => none

/-- Body of a JSON string literal after the opening quote; returns the decoded
characters and the remaining input.  Control characters must be escaped;
surrogate escape pairs are combined, lone surrogates are rejected. -/
def parseStrBody : List Char → Option (List Char × List Char)
  | [] => none
  | '"' :: rest => some ([], rest)
  | '\\' :: 'u' :: h1 :: h2 :: h3 :: h4 :: rest =>
    (match hexVal h1, hexVal h2, hexVal h3, hexVal h4 with
     | some a, some b, some c, some d =>
       let code := ((a * 16 + b) * 16 + c) * 16 + d
       if code < 0xD800 || 0xDFFF < code then
         match parseStrBody rest with
         | some (s, r) => some (Char.ofNat code :: s, r)
         | none => none
       else if code ≤ 0xDBFF then
         match rest with
         | '\\' :: 'u' :: g1 :: g2 :: g3 :: g4 :: rest2 =>
           (match hexVal g1, hexVal g2, hexVal g3, hexVal g4 with
            | some a2, some b2, some c2, some d2 =>
              let lo := ((a2 * 16 + b2) * 16 + c2) * 16 + d2
              if 0xDC00 ≤ lo && lo ≤ 0xDFFF then
                match parseStrBody rest2 with
                | some (s, r) =>
                  some (Char.ofNat (0x10000 + (code - 0xD800) * 1024 + (lo - 0xDC00)) :: s, r)
                | none => none
              else none
            | _, _, _, _ => none)
         | _ => none
       else none
     | _, _, _, _ => none)
  | '\\' :: e :: rest =>
    (match
       (if e = '"' then some '"'
        else if e = '\\' then some '\\'
        else if e = '/' then some '/'
        else if e = 'b' then some (Char.ofNat 8)
        else if e = 'f' then some (Char.ofNat 12)
        else if e = 'n' then some '\n'
        else if e = 'r' then some '\r'
        else if e = 't' then some '\t'
        else none) with
     | some c =>
       match parseStrBody rest with
       | some (s, r) => some (c :: s, r)
       | none => none
     | none => none)
  | c :: rest =>
    if c.toNat < 32 then none
    else
      match parseStrBody rest with
      | some (s, r) => some (c :: s, r)
      | none => none

mutual

/-- Fuel-bounded JSON value; fuel one larger than the input length always
suffices, so parseJson below never fails for lack of fuel. -/
def parseVal : Nat → List Char → Option (JVal × List Char)
  | 0, _ => none
  | fuel + 1, cs =>
    match skipWs cs with
    | 'n' :: 'u' :: 'l' :: 'l' :: rest => some (.null, rest)
    | 't' :: 'r' :: 'u' :: 'e' :: rest => some (.bool true, rest)
    | 'f' :: 'a' :: 'l' :: 's' :: 'e' :: rest => some (.bool false, rest)
    | '"' :: rest =>
      (match parseStrBody rest with
       | some (s, r) => some (.str (String.mk s), r)
       | none => none)
    | '[' :: rest =>
      (match skipWs rest with
       | ']' :: r2 => some (.arr [], r2)
       | _ =>
         match parseVal fuel rest with
         | some (v, r2) =>
           (match parseArrTail fuel r2 with
            | some (vs, r3) => some (.arr (v :: vs), r3)
            | none => none)
         | none => none)
    | '\x7b' :: rest =>
      (match skipWs rest with
       | '\x7d' :: r2 => some (.obj [], r2)
       | _ =>
         match parseMember fuel rest with
         | some (kv, r2) =>
           (match parseObjTail fuel r2 with
            | some (kvs, r3) => some (.obj (kv :: kvs), r3)
            | none => none)
         | none => none)
    | other =>
      match parseIntTok other with
      | some (n, r) => some (.num n, r)
      | none => none

/-- Remaining comma-separated array elements up to the closing bracket. -/
def parseArrTail : Nat → List Char → Option (List JVal × List Char)
  | 0, _ => none
  | fuel + 1, cs =>
    match skipWs cs with
    | ']' :: rest => some ([], rest)
    | ',' :: rest =>
      (match parseVal fuel rest with
       | some (v, r2) =>
         (match parseArrTail fuel r2 with
          | some (vs, r3) => some (v :: vs, r3)
          | none => none)
       | none => none)
    | _ => none

/-- One object member: a string key, a colon, a value. -/
def parseMember : Nat → List Char → Option ((String × JVal) × List Char)
  | 0, _ => none
  | fuel + 1, cs =>
    match skipWs cs with
    | '"' :: rest =>
      (match parseStrBody rest with
       | some (k, r2) =>
         (match skipWs r2 with
          | ':' :: r3 =>
            (match parseVal fuel r3 with
             | some (v, r4) => some ((String.mk k, v), r4)
             | none => none)
          | _ => none)
       | none => none)
    | _ => none

/-- Remaining comma-separated object members up to the closing brace. -/
def parseObjTail : Nat → List Char → Option (List (String × JVal) × List Char)
  | 0, _ => none
  | fuel + 1, cs =>
    match skipWs cs with
    | '\x7d' :: rest => some ([], rest)
    | ',' :: rest =>
      (match parseMember fuel rest with
       | some (kv, r2) =>
         (match parseObjTail fuel r2 with
          | some (kvs, r3) => some (kv :: kvs, r3)
          | none => none)
       | none => none)
    | _ => none

end

/-- Model of json.loads / response.json(): the whole input must be consumed
apart from trailing whitespace. -/
def parseJson (s : String) : Option JVal :=
  match parseVal (s.data.length + 1) s.data with
  | some (v, rest) => if (skipWs rest).isEmpty then some v else none
  | none => none

/-- Unicode replacement character, used by errors equal "replace" decoding. -/
def replChar : Char := Char.ofNat 0xFFFD

/-- Continuation-byte test for UTF-8. -/
def isContByte (b : Nat) : Bool := 128 ≤ b && b < 192

/-- Fuel-bounded UTF-8 decoding with replacement of invalid sequences,
modelling bytes.decode("utf-8", errors="replace") as performed inside
urllib.parse.unquote. -/
def utf8DecodeAux : Nat → List Nat → List Char
  | 0, _ => []
  | _, [] => []
  | fuel + 1, b :: bs =>
    if b < 128 then Char.ofNat b :: utf8DecodeAux fuel bs
    else if b < 194 then replChar :: utf8DecodeAux fuel bs
    else if b < 224 then
      match bs with
      | b2 :: rest =>
        if isContByte b2 then
          Char.ofNat ((b - 192) * 64 + (b2 - 128)) :: utf8DecodeAux fuel rest
        else replChar :: utf8DecodeAux fuel bs
      | [] => [replChar]
    else if b < 240 then
      match bs with
      | b2 :: rest =>
        if isContByte b2 && (b != 224 || 160 ≤ b2) && (b != 237 || b2 < 160) then
          match rest with
          | b3 :: rest2 =>
            if isContByte b3 then
              Char.ofNat ((b - 224) * 4096 + (b2 - 128) * 64 + (b3 - 128)) ::
                utf8DecodeAux fuel rest2
            else replChar :: utf8DecodeAux fuel rest
          | [] => [replChar]
        else replChar :: utf8DecodeAux fuel bs
      | [] => [replChar]
    else if b < 245 then
      match bs with
      | b2 :: rest =>
        if isContByte b2 && (b != 240 || 144 ≤ b2) && (b != 244 || b2 < 144) then
          match rest with
          | b3 :: rest2 =>
            if isContByte b3 then
              match rest2 with
              | b4 :: rest3 =>
                if isContByte b4 then
                  Char.ofNat
                      ((b - 240) * 262144 + (b2 - 128) * 4096 + (b3 - 128) * 64 + (b4 - 128)) ::
                    utf8DecodeAux fuel rest3
                else replChar :: utf8DecodeAux fuel rest2
              | [] => [replChar]
            else replChar :: utf8DecodeAux fuel rest
          | [] => [replChar]
        else replChar :: utf8DecodeAux fuel bs
      | [] => [replChar]
    else replChar :: utf8DecodeAux fuel bs

/-- UTF-8 decoding of a byte list. -/
def utf8Decode (bs : List Nat) : List Char := utf8DecodeAux (bs.length + 1) bs

/-- Longest leading run of percent-encoded bytes, returned together with the
remaining characters. -/
def pctRun : List Char → List Nat × List Char
  | '%' :: h1 :: h2 :: rest =>
    (match hexVal h1, hexVal h2 with
     | some a, some b =>
       let p := pctRun rest
       ((16 * a + b) :: p.1, p.2)
     | _, _ => ([], '%' :: h1 :: h2 :: rest))
  | cs => ([], cs)

/-- Fuel-bounded core of urllib.parse.unquote: literal characters pass
through, maximal percent-encoded byte runs are UTF-8 decoded. -/
def unquoteAux : Nat → List Char → List Char
  | 0, _ => []
  | _ + 1, [] => []
  | fuel + 1, '%' :: h1 :: h2 :: rest =>
    (match hexVal h1, hexVal h2 with
     | some a, some b =>
       let p := pctRun rest
       utf8Decode ((16 * a + b) :: p.1) ++ unquoteAux fuel p.2
     | _, _ => '%' :: unquoteAux fuel (h1 :: h2 :: rest))
  | fuel + 1, c :: rest => c :: unquoteAux fuel rest

/-- Model of urllib.parse.unquote with UTF-8 replacement decoding. -/
def unquote (s : String) : String := String.mk (unquoteAux (s.data.length + 1) s.data)

/-- Index of the first occurrence of the pattern at or after the given
position, the positional analogue of Python str.find. -/
def findSubAux (pat : List Char) : List Char → Nat → Option Nat
  | [], i => if pat.isEmpty then some i else none
  | c :: t, i => if List.isPrefixOf pat (c :: t) then some i else findSubAux pat t (i + 1)

/-- Marker the fallback extraction searches for inside the script text,
exactly the literal of luogu_scraper.py line 101. -/
def ducMarker : List Char := "decodeURIComponent(\"".data

/-- Embedded payload extraction from the text of the marker script tag
(luogu_scraper.py lines 101 to 107): the substring between the first
occurrence of the decodeURIComponent opening and the following quote-paren
close, still percent-encoded. -/
def extractPayload (script : String) : Option String :=
  match findSubAux ducMarker script.data 0 with
  | none => none
  | some i =>
    let start := i + ducMarker.length
    let tail := script.data.drop start
    match findSubAux ("\")".data) tail 0 with
    | none => none
    | some j => some (String.mk (tail.take j))

/-- Page-body decoding, luogu_scraper.py lines 84 to 110: first the direct
response.json() decode of the body text; on failure, the embedded-script
fallback.  The feScript argument models the text of the script tag located
by BeautifulSoup whose content mentions window._feInjection (none when no
such tag exists); a failing json.loads inside the fallback is caught by the
inner except and leaves the data unset. -/
def decodeData (text : String) (feScript : Option String) : Option JVal :=
  match parseJson text with
  | some v => some v
  | none =>
    match feScript with
    | none => none
    | some s =>
      match extractPayload s with
      | none => none
      | some enc => parseJson (unquote enc)

/-- Days since the epoch 1970-01-01 of a civil date (proleptic Gregorian),
the arithmetic behind datetime.timestamp with the local zone taken as UTC. -/
def daysFromCivil (y m d : Int) : Int :=
  let y2 := y - (if m ≤ 2 then 1 else 0)
  let era := y2.fdiv 400
  let yoe := y2 - era * 400
  let doy := (153 * (m + (if 2 < m then -3 else 9)) + 2).fdiv 5 + d - 1
  let doe := yoe * 365 + yoe.fdiv 4 - yoe.fdiv 100 + doy
  era * 146097 + doe - 719468

/-- Civil date (year, month, day) of a count of days since 1970-01-01, the
arithmetic behind datetime.fromtimestamp with the local zone taken as UTC. -/
def civilFromDays (z0 : Int) : Int × Int × Int :=
  let z := z0 + 719468
  let era := z.fdiv 146097
  let doe := z - era * 146097
  let yoe := (doe - doe.fdiv 1460 + doe.fdiv 36524 - doe.fdiv 146096).fdiv 365
  let y := yoe + era * 400
  let doy := doe - (365 * yoe + yoe.fdiv 4 - yoe.fdiv 100)
  let mp := (5 * doy + 2).fdiv 153
  let d := doy - (153 * mp + 2).fdiv 5 + 1
  let m := mp + (if mp < 10 then 3 else -9)
  (y + (if m ≤ 2 then 1 else 0), m, d)

/-- Decimal digits of a natural number, left zero-padded to the width. -/
def padNat (width n : Nat) : String :=
  let ds := Nat.toDigits 10 n
  String.mk (List.replicate (width - ds.length) '0' ++ ds)

/-- Model of datetime.datetime.fromtimestamp(t).strftime with the format
of luogu_scraper.py line 169, local time taken as UTC. -/
def fmtTs (t : Int) : String :=
  let days := t.fdiv 86400
  let secs := (t - days * 86400).toNat
  let c := civilFromDays days
  padNat 4 c.1.toNat ++ "-" ++ padNat 2 c.2.1.toNat ++ "-" ++ padNat 2 c.2.2.toNat ++ " " ++
    padNat 2 (secs / 3600) ++ ":" ++ padNat 2 (secs % 3600 / 60) ++ ":" ++ padNat 2 (secs % 60)

/-- Whether a year is a leap year. -/
def isLeapYear (y : Nat) : Bool := y % 4 = 0 && (y % 100 != 0 || y % 400 = 0)

/-- Number of days in a month. -/
def daysInMonth (y m : Nat) : Nat :=
  if m = 2 then (if isLeapYear y then 29 else 28)
  else if m = 4 || m = 6 || m = 9 || m = 11 then 30
  else 31

/-- The %m token of the CPython strptime regular expression, alternatives
1[0-2], 0[1-9], [1-9] in that order; the token value and the remaining
characters.  Taking the two-digit alternative never loses a match the
one-digit alternative would allow, because the consumed second character
(a digit) can never equal the dash the format requires next. -/
def monthTok : List Char → Option (Nat × List Char)
  | '1' :: c :: rest =>
    if 48 ≤ c.toNat && c.toNat ≤ 50 then some (10 + (c.toNat - 48), rest)
    else some (1, c :: rest)
  | '0' :: c :: rest =>
    if 49 ≤ c.toNat && c.toNat ≤ 57 then some (c.toNat - 48, rest)
    else none
  | c :: rest =>
    if 49 ≤ c.toNat && c.toNat ≤ 57 then some (c.toNat - 48, rest)
    else none
  | [] => none

/-- The %d token of the CPython strptime regular expression, alternatives
3[01], [12] followed by a digit, 0[1-9], [1-9], and a space followed by
[1-9]; the token value and the remaining characters.  As for the month,
the greedy two-digit alternatives never lose a match, since the format
requires the end of the string after the day. -/
def dayTok : List Char → Option (Nat × List Char)
  | '3' :: c :: rest =>
    if 48 ≤ c.toNat && c.toNat ≤ 49 then some (30 + (c.toNat - 48), rest)
    else some (3, c :: rest)
  | '0' :: c :: rest =>
    if 49 ≤ c.toNat && c.toNat ≤ 57 then some (c.toNat - 48, rest)
    else none
  | ' ' :: c :: rest =>
    if 49 ≤ c.toNat && c.toNat ≤ 57 then some (c.toNat - 48, rest)
    else none
  | c1 :: c :: rest =>
    if 49 ≤ c1.toNat && c1.toNat ≤ 50 then
      (if isDigitCh c then some ((c1.toNat - 48) * 10 + (c.toNat - 48), rest)
       else some (c1.toNat - 48, c :: rest))
    else none
  | [c] =>
    if 49 ≤ c.toNat && c.toNat ≤ 57 then some (c.toNat - 48, [])
    else none
  | [] => none

/-- Model of luogu_scraper.py lines 38 to 44: strptime(min_date, "%Y-%m-%d")
followed by .timestamp(), yielding the timestamp of the start of the given
calendar day; none models the ValueError branch that ignores min_date.
Mirrors the CPython strptime matching for this format: %Y is exactly four
digits, %m and %d follow the token alternatives above (the day also in its
space-padded one-digit form), the dashes are literal, the whole string must
be consumed, and the date constructor then rejects a year below 1 and a day
beyond the month length. -/
def parseMinDate (s : String) : Option Int :=
  match s.data with
  | y1 :: y2 :: y3 :: y4 :: '-' :: rest =>
    if isDigitCh y1 && isDigitCh y2 && isDigitCh y3 && isDigitCh y4 then
      let y := digitsToNat [y1, y2, y3, y4]
      match monthTok rest with
      | some (m, '-' :: rest2) =>
        (match dayTok rest2 with
         | some (d, []) =>
           if 1 ≤ y && d ≤ daysInMonth y m then
             some (86400 * daysFromCivil (y : Int) (m : Int) (d : Int))
           else none
         | _ => none)
      | _ => none
    else none
  | _ => none

/-- Output record of the fetcher, the dict built at luogu_scraper.py lines
172 to 178.  The pid, title and score fields are dynamic values because
problem.get and record.get may produce any decoded value or None. -/
structure Rec where
  problem_id : JVal
  problem_title : JVal
  status : String
  score : JVal
  time : String

/-- The problem field of an entry: record.get("problem", \x7b\x7d). -/
def problemOf (kvs : List (String × JVal)) : JVal := pyGetD kvs "problem" (.obj [])

/-- The submitTime field of an entry: record.get("submitTime", 0). -/
def submitTimeOf (kvs : List (String × JVal)) : JVal := pyGetD kvs "submitTime" (.num 0)

/-- The status field of an entry: record.get("status"). -/
def statusOf (kvs : List (String × JVal)) : JVal := pyGetD kvs "status" .null

/-- The record the fetcher appends for an accepted entry with numeric
submission time t, following lines 168 to 178 of luogu_scraper.py. -/
def recOf (kvs : List (String × JVal)) (t : Int) : Rec :=
  { problem_id :=
      match problemOf kvs with
      | .obj pkvs => pyGetD pkvs "pid" .null
      | _ => .null
    problem_title :=
      match problemOf kvs with
      | .obj pkvs => pyGetD pkvs "title" .null
      | _ => .null
    status := "Accepted"
    score := pyGetD kvs "score" (.num 0)
    time := fmtTs t }

/-- Python equality on the decoded values the scraper compares; values of
different shapes are unequal, so the status test of line 165 keeps an entry
exactly when its status is the number 12. -/
def jvalBeq : JVal → JVal → Bool
  | .null, .null => true
  | .bool a, .bool b => a == b
  | .num a, .num b => a == b
  | .str a, .str b => a == b
  | _, _ => false

instance : BEq JVal := ⟨jvalBeq⟩

/-- Outcome of processing one entry of the records list, lines 148 to 182:
cutoff is the early return for an entry older than min_date, err models an
exception raised while handling the entry (caught by the outer except,
which breaks the loop), skip discards a non-Accepted entry, keep appends
a record. -/
inductive EStep where
  | cutoff
  | err
  | skip
  | keep (r : Rec)

/-- The part of the entry handling after the date cutoff check, lines 162 to
179: the status test, then fromtimestamp (raising on a non-numeric
submitTime), then the record construction, where a truthy non-dict problem
value raises at problem.get. -/
def entryAfterCutoff (kvs : List (String × JVal)) : EStep :=
  if statusOf kvs != .num 12 then .skip
  else
    match submitTimeOf kvs with
    | .num t =>
      (match problemOf kvs with
       | .obj _ => .keep (recOf kvs t)
       | _ => .err)
    | _ => .err

/-- One entry of the for loop over records, mirroring the statement order of
luogu_scraper.py lines 148 to 182: with min_date set, the cutoff comparison
of line 156 runs first (raising on a non-numeric submitTime); only then the
status test and the record construction. -/
def entryStep (minTs : Option Int) (e : JVal) : EStep :=
  match e with
  | .obj kvs =>
    (match minTs with
     | some ts =>
       (match submitTimeOf kvs with
        | .num t => if t < ts then .cutoff else entryAfterCutoff kvs
        | _ => .err)
     | none => entryAfterCutoff kvs)
  | _ => .err

/-- Result of the for loop over the records of one page: ret is the early return
of line 160, err a raised exception (break via the catch-all except), done
normal completion reaching the pagination check. -/
inductive ScanRes where
  | ret (recs : List Rec)
  | err (recs : List Rec)
  | done (recs : List Rec)

/-- The for loop of luogu_scraper.py lines 148 to 182 over the entries of
one page, threading the accumulated record list. -/
def scanEntries (minTs : Option Int) (acc : List Rec) : List JVal → ScanRes
  | [] => .done acc
  | e :: es =>
    match entryStep minTs e with
    | .cutoff => .ret acc
    | .err => .err acc
    | .skip => scanEntries minTs acc es
    | .keep r => scanEntries minTs (acc ++ [r]) es

/-- The records kept by a full scan of an entry list that triggers neither
the cutoff nor an exception: the Accepted entries in order. -/
def acceptedOf (minTs : Option Int) (es : List JVal) : List Rec :=
  es.filterMap fun e =>
    match entryStep minTs e with
    | .keep r => some r
    | _ => none

/-- One transport-level response of session.get for a page request:
either a response with a status code, a body text and the optional
window._feInjection script tag text, or a raised timeout, or another
raised requests exception. -/
inductive PageResp where
  | ok (statusCode : Nat) (text : String) (feScript : Option String)
  | timeout
  | netError

/-- What one response lets the loop body do: stop covers every break taken
before the for loop over records (transport failure, undecodable body,
non-dict data, API-error structure, unusable or empty records container);
proceed carries the entries of the records list and the fields of the
records object, whose count and perPage drive the pagination check. -/
inductive PageView where
  | stop
  | proceed (entries : List JVal) (recordsData : List (String × JVal))

/-- Extraction from the chosen record container, luogu_scraper.py lines 141
to 146: records_data is container.get("records", \x7b\x7d) and its result
list drives the for loop; a non-dict intermediate raises and breaks, a falsy
records value is the no-records break of line 146. -/
def pageContainerView (container : JVal) : PageView :=
  match container with
  | .obj ckvs =>
    (match pyGetD ckvs "records" (.obj []) with
     | .obj rkvs =>
       let records := pyGetD rkvs "result" (.arr [])
       if !truthy records then .stop
       else
         match records with
         | .arr es => .proceed es rkvs
         | _ => .stop
     | _ => .stop)
  | _ => .stop

/-- Everything the loop body decides from one response before and around the
for loop over records, luogu_scraper.py lines 76 to 146: the non-200 break,
the two-strategy body decode, the non-dict break, the API-error break of
lines 128 to 132, and the currentData fallback of lines 134 to 139. -/
def pageView (resp : PageResp) : PageView :=
  match resp with
  | .timeout => .stop
  | .netError => .stop
  | .ok statusCode text feScript =>
    if statusCode ≠ 200 then .stop
    else
      match decodeData text feScript with
      | none => .stop
      | some data =>
        match data with
        | .obj kvs =>
          let codeIs200 : Bool :=
            match assocLast kvs "code" with
            | some (.num n) => n == 200
            | _ => false
          if !codeIs200 && !(assocLast kvs "currentData").isSome then
            .stop
          else
            let currentData := pyGetD kvs "currentData" (.obj [])
            pageContainerView (if truthy currentData then currentData else .obj kvs)
        | _ => .stop

/-- Result of one whole iteration of the while loop for a given page number:
stop ends the loop (break or return) with the records so far, next advances
to the following page number. -/
inductive StepRes where
  | stop (recs : List Rec)
  | next (recs : List Rec)

/-- The pagination check of lines 184 to 191 on the records object: some b
when count and perPage are numbers, with b true exactly when page times
perPage has reached the count; none models the TypeError a non-numeric
value raises at the comparison (the catch-all except then breaks). -/
def paginationStop (page : Nat) (rkvs : List (String × JVal)) : Option Bool :=
  match pyGetD rkvs "count" (.num 0), pyGetD rkvs "perPage" (.num 20) with
  | .num c, .num p => some (decide (c ≤ (page : Int) * p))
  | _, _ => none

/-- One iteration of the while loop of luogu_scraper.py lines 73 to 204 at
the given page number: the page view, then the for loop over entries, then
the pagination check. -/
def stepPage (minTs : Option Int) (page : Nat) (acc : List Rec) (resp : PageResp) : StepRes :=
  match pageView resp with
  | .stop => .stop acc
  | .proceed es rkvs =>
    match scanEntries minTs acc es with
    | .ret recs => .stop recs
    | .err recs => .stop recs
    | .done recs =>
      match paginationStop page rkvs with
      | some true => .stop recs
      | some false => .next recs
      | none => .stop recs

/-- Result of a fetch run: out is a loop exit by break or return together
with the last page number that was requested; fuelOut marks exhaustion of
the fuel bound (the Python loop has no such bound; theorems always supply
enough fuel). -/
inductive FetchOut where
  | out (recs : List Rec) (lastPage : Nat)
  | fuelOut (recs : List Rec) (nextPage : Nat)

/-- The records carried by a fetch outcome. -/
def FetchOut.recs : FetchOut → List Rec
  | .out recs _ => recs
  | .fuelOut recs _ => recs

/-- The while loop of get_records: request page after page, one page number
per iteration, accumulating records until some iteration stops. -/
def fetchLoop (pages : Nat → PageResp) (minTs : Option Int) :
    Nat → Nat → List Rec → FetchOut
  | 0, page, acc => .fuelOut acc page
  | fuel + 1, page, acc =>
    match stepPage minTs page acc (pages page) with
    | .stop recs => .out recs page
    | .next recs => fetchLoop pages minTs fuel (page + 1) recs

/-- Model of get_records of src/luogu_scraper.py: convert min_date through
strptime (an unparsable value is ignored, line 44), then run the fetch loop
from page 1 with an empty record list.  The page stream models the remote
judge; cookies and headers do not affect the control flow and are absorbed
into the stream. -/
def get_records (pages : Nat → PageResp) (minDate : Option String) (fuel : Nat) : FetchOut :=
  fetchLoop pages (minDate.bind parseMinDate) fuel 1 []

/-- Insertion of an element into a list sorted by the given comparison,
placed before the first element it compares at-or-below. -/
def insertLe {a : Type} (le : a → a → Bool) (r : a) : List a → List a
  | [] => [r]
  | x :: xs => if le r x then r :: x :: xs else x :: insertLe le r xs

/-- Insertion sort by the given comparison; a structurally recursive model
of the sort performed by pandas sort_values. -/
def insSort {a : Type} (le : a → a → Bool) : List a → List a
  | [] => []
  | r :: rs => insertLe le r (insSort le rs)

/-- One decoded entry of a per-user JSON record file, reduced to the four
columns desired_cols of analyze_records.py line 50 (reindex makes them
present even when missing, so the fields are plain strings). -/
structure SubRec where
  problem_id : String
  problem_title : String
  status : String
  time : String
deriving DecidableEq, Repr

/-- Lexicographic comparison of character lists by code point, the order
pandas uses when sorting a column of such time strings. -/
def charListLe : List Char → List Char → Bool
  | [], _ => true
  | _ :: _, [] => false
  | a :: as, b :: bs =>
    if a.toNat = b.toNat then charListLe as bs else decide (a.toNat < b.toNat)

/-- String comparison by code point. -/
def strLe (a b : String) : Bool := charListLe a.data b.data

/-- Comparison of record entries by their time string, the key of the
sort_values call of analyze_records.py line 58. -/
def timeLe (a b : SubRec) : Bool := strLe a.time b.time

/-- The sort of line 58: ascending by time string. -/
def sortByTime (rs : List SubRec) : List SubRec := insSort timeLe rs

/-- The drop_duplicates call of line 60: keep the first occurrence of each
problem_id, scanning left to right with the set of ids already seen. -/
def dropDupPids : List SubRec → List String → List SubRec
  | [], _ => []
  | r :: rs, seen =>
    if r.problem_id ∈ seen then dropDupPids rs seen
    else r :: dropDupPids rs (r.problem_id :: seen)

/-- Per-user deduplication, analyze_records.py lines 56 to 62: sort by time
ascending, then keep the earliest record of each problem_id. -/
def dedupRecords (rs : List SubRec) : List SubRec := dropDupPids (sortByTime rs) []

/-- Date part of a time string: the prefix before the first space, as
produced by the split of line 69. -/
def datePartOf (t : String) : String := String.mk (t.data.takeWhile (fun c => c ≠ ' '))

/-- Time-of-day part of a time string: everything after the first space,
empty when no space occurs. -/
def timePartOf (t : String) : String :=
  match t.data.dropWhile (fun c => c ≠ ' ') with
  | [] => ""
  | _ :: rest => String.mk rest

/-- One row of the detail sheet, columns of analyze_records.py line 81. -/
structure DetailRow where
  seq : Nat
  uid : String
  name : String
  pid : String
  title : String
  acDate : String
  acTime : String
deriving DecidableEq, Repr

/-- Per-user block of the detail table, analyze_records.py lines 47 to 81:
deduplicate, split the time column, then assign the 1-based sequence
numbers of line 74. -/
def detailRows (uid userName : String) (rs : List SubRec) : List DetailRow :=
  let dd := dedupRecords rs
  ((List.range' 1 dd.length).zip dd).map fun p =>
    { seq := p.1
      uid := uid
      name := userName
      pid := p.2.problem_id
      title := p.2.problem_title
      acDate := datePartOf p.2.time
      acTime := timePartOf p.2.time }

/-- The uid_map.get(uid, uid) lookup of line 34; the name lookup is an
association list with pairwise distinct keys, as a Python dict guarantees. -/
def userNameOf (uidMap : List (String × String)) (uid : String) : String :=
  match List.lookup uid uidMap with
  | some n => n
  | none => uid

/-- Number of detail rows bearing a user identifier, the value
result["UID"].value_counts().get(uid, 0) of lines 115 to 120. -/
def acCount (detail : List DetailRow) (uid : String) : Nat :=
  (detail.filter fun r => r.uid = uid).length

/-- One row of the summary sheet, columns of analyze_records.py lines 121
and 129. -/
structure SummaryRow where
  seq : Nat
  uid : String
  name : String
  count : Nat
deriving DecidableEq, Repr

/-- The unsorted summary rows of lines 117 to 121: one triple per name
lookup entry, in lookup order, with the detail-row count of that identifier. -/
def summaryEntries (uidMap : List (String × String)) (detail : List DetailRow) :
    List (String × String × Nat) :=
  uidMap.map fun p => (p.1, p.2, acCount detail p.1)

/-- Descending comparison on the count component, the key of the
sort_values call of line 126. -/
def countGe (a b : String × String × Nat) : Bool := b.2.2 ≤ a.2.2

/-- The summary sheet, lines 117 to 129: sort the entries by count
descending, then insert the 1-based sequence numbers. -/
def summarySheet (uidMap : List (String × String)) (detail : List DetailRow) :
    List SummaryRow :=
  ((List.range' 1 (insSort countGe (summaryEntries uidMap detail)).length).zip
      (insSort countGe (summaryEntries uidMap detail))).map fun p =>
    { seq := p.1, uid := p.2.1, name := p.2.2.1, count := p.2.2.2 }

/-- Model of analyze_to_excel of src/analyze_records.py.  The input models
the lexicographically sorted directory listing as a list of file stems with
the decode outcome of each file: none for a json.load failure (the file is
skipped with a warning, line 41), some [] for a file holding empty data
(skipped at line 44).  The result is none when the function returns early
at lines 15 to 17 because no record files exist, and otherwise the pair of
the detail table and the summary sheet that are written to the
spreadsheet. -/
def analyze_to_excel (files : List (String × Option (List SubRec)))
    (uidMap : List (String × String)) : Option (List DetailRow × List SummaryRow) :=
  if files.isEmpty then none
  else
    let blocks := files.filterMap fun p =>
      match p.2 with
      | none => none
      | some [] => none
      | some rs => some (detailRows p.1 (userNameOf uidMap p.1) rs)
    let detail := blocks.flatten
    some (detail, summarySheet uidMap detail)

/-- The records carried by a scan outcome. -/
def ScanRes.recs : ScanRes → List Rec
  | .ret recs => recs
  | .err recs => recs
  | .done recs => recs

/-- The records carried by a step outcome. -/
def StepRes.recs : StepRes → List Rec
  | .stop recs => recs
  | .next recs => recs

/-- The count field of the records object: records_data.get("count", 0). -/
def countOf (rkvs : List (String × JVal)) : JVal := pyGetD rkvs "count" (.num 0)

/-- The perPage field of the records object:
records_data.get("perPage", 20). -/
def perPageOf (rkvs : List (String × JVal)) : JVal := pyGetD rkvs "perPage" (.num 20)

/-- Submission timestamp of an entry as an integer, zero for shapes on which
the scraper would raise instead. -/
def entryTs : JVal → Int
  | .obj kvs =>
    (match submitTimeOf kvs with
     | .num t => t
     | _ => 0)
  | _ => 0

/-- The entry carries the Accepted status code 12 of the judge. -/
def statusIs12 (e : JVal) : Prop :=
  ∃ kvs, e = JVal.obj kvs ∧ statusOf kvs = .num 12

/-- The record the fetcher would append for an entry. -/
def recOfE : JVal → Rec
  | .obj kvs => recOf kvs (entryTs (.obj kvs))
  | e => recOf [] (entryTs e)

/-- Concatenation of the entry lists of the pages with numbers a, a + 1, ...,
a + len - 1, in request order. -/
def catFrom (es : Nat → List JVal) (a len : Nat) : List JVal :=
  ((List.range' a len).map es).flatten

/-- Page n lets the loop advance: its view proceeds with the entries es n,
no entry triggers the cutoff return or an exception, and the pagination
check finds numeric count and perPage with n * perPage still short of the
count. -/
def goodNextPage (pages : Nat → PageResp) (minTs : Option Int) (es : Nat → List JVal)
    (n : Nat) : Prop :=
  ∃ rkvs, pageView (pages n) = .proceed (es n) rkvs ∧
    (∀ e ∈ es n, entryStep minTs e ≠ .cutoff ∧ entryStep minTs e ≠ .err) ∧
    ∃ c p : Int, countOf rkvs = .num c ∧ perPageOf rkvs = .num p ∧ (n : Int) * p < c

/-! Concrete inputs used by the closed witness and counterexample theorems. -/

/-- Two records for one problem with distinct times, the newer one first. -/
def rsW : List SubRec :=
  [{ problem_id := "P1", problem_title := "t1", status := "Accepted",
     time := "2024-01-02 10:00:00" },
   { problem_id := "P1", problem_title := "t1", status := "Accepted",
     time := "2024-01-01 09:00:00" }]

/-- The single detail row the records rsW produce. -/
def rowW : DetailRow :=
  { seq := 1, uid := "100", name := "Alice", pid := "P1", title := "t1",
    acDate := "2024-01-01", acTime := "09:00:00" }

/-- A two-entry name lookup. -/
def uidMapW : List (String × String) := [("100", "Alice"), ("200", "Bob")]

/-- The detail rows of user 100 for rsW. -/
def detailW : List DetailRow := detailRows "100" "Alice" rsW

/-- A directory with one undecodable and one empty record file. -/
def filesW : List (String × Option (List SubRec)) := [("100", none), ("200", some [])]

/-- The object both response shapes of the fallback witness decode to. -/
def w5Val : JVal := .obj [("code", .num 200)]

/-- A body that is the payload JSON directly. -/
def w5TextA : String := "\x7b\"code\":200\x7d"

/-- A body on which response.json() fails. -/
def w5TextB : String := "<!DOCTYPE html>"

/-- The percent-encoded payload. -/
def w5Enc : String := "%7B%22code%22%3A200%7D"

/-- The embedded-script text carrying the encoded payload. -/
def w5Script : String :=
  "window._feInjection = JSON.parse(decodeURIComponent(\"%7B%22code%22%3A200%7D\"));"

/-- An Accepted entry nested under a top-level records container. -/
def c6Entry : JVal :=
  .obj [("status", .num 12), ("submitTime", .num 1700000000),
        ("problem", .obj [("pid", .str "P9")])]

/-- The records object of the top-level container. -/
def c6Rkvs : List (String × JVal) :=
  [("result", .arr [c6Entry]), ("count", .num 1), ("perPage", .num 20)]

/-- A decoded page with code 500, no currentData key, and records at top
level. -/
def c6Kvs : List (String × JVal) := [("code", .num 500), ("records", .obj c6Rkvs)]

/-- Body text decoding to c6Kvs. -/
def c6Text : String :=
  "\x7b\"code\":500,\"records\":\x7b\"result\":[\x7b\"status\":12,\"submitTime\":1700000000,\"problem\":\x7b\"pid\":\"P9\"\x7d\x7d],\"count\":1,\"perPage\":20\x7d\x7d"

/-- The same page with code 200, still without currentData. -/
def c6OkKvs : List (String × JVal) := [("code", .num 200), ("records", .obj c6Rkvs)]

/-- Body text decoding to c6OkKvs. -/
def c6OkText : String :=
  "\x7b\"code\":200,\"records\":\x7b\"result\":[\x7b\"status\":12,\"submitTime\":1700000000,\"problem\":\x7b\"pid\":\"P9\"\x7d\x7d],\"count\":1,\"perPage\":20\x7d\x7d"

/-- Accepted entry with submission time 1700000000 (2023-11-14 22:13:20). -/
def w1E1 : JVal :=
  .obj [("status", .num 12), ("submitTime", .num 1700000000),
        ("problem", .obj [("pid", .str "P1"), ("title", .str "A")]),
        ("score", .num 100)]

/-- Non-accepted entry with submission time 1699000000, still at or after
the cutoff of the C1 witness. -/
def w1E2 : JVal := .obj [("status", .num 5), ("submitTime", .num 1699000000)]

/-- Accepted entry with submission time 1690000000, before the cutoff of the
C1 witness. -/
def w1E3 : JVal :=
  .obj [("status", .num 12), ("submitTime", .num 1690000000),
        ("problem", .obj [("pid", .str "P2"), ("title", .str "B")])]

/-- Page body: entry w1E1, total 25, page size 20, so the loop advances. -/
def w1Text1 : String :=
  "\x7b\"code\":200,\"currentData\":\x7b\"records\":\x7b\"result\":[\x7b\"status\":12,\"submitTime\":1700000000,\"problem\":\x7b\"pid\":\"P1\",\"title\":\"A\"\x7d,\"score\":100\x7d],\"count\":25,\"perPage\":20\x7d\x7d\x7d"

/-- Page body: entries w1E2 then w1E3, total 25, page size 20. -/
def w1Text2 : String :=
  "\x7b\"code\":200,\"currentData\":\x7b\"records\":\x7b\"result\":[\x7b\"status\":5,\"submitTime\":1699000000\x7d,\x7b\"status\":12,\"submitTime\":1690000000,\"problem\":\x7b\"pid\":\"P2\",\"title\":\"B\"\x7d\x7d],\"count\":25,\"perPage\":20\x7d\x7d\x7d"

/-- Records object of w1Text1. -/
def w1Rkvs1 : List (String × JVal) :=
  [("result", .arr [w1E1]), ("count", .num 25), ("perPage", .num 20)]

/-- Records object of w1Text2. -/
def w1Rkvs2 : List (String × JVal) :=
  [("result", .arr [w1E2, w1E3]), ("count", .num 25), ("perPage", .num 20)]

/-- Records object of w8Text2. -/
def w8Rkvs2 : List (String × JVal) :=
  [("result", .arr [w1E3]), ("count", .num 25), ("perPage", .num 20)]

/-- Page stream of the C1 witness: page 1 is w1Text1, later pages w1Text2. -/
def w1Pages : Nat → PageResp :=
  fun n => if n = 1 then .ok 200 w1Text1 none else .ok 200 w1Text2 none

/-- Entry lists of the C1 witness stream. -/
def w1Es : Nat → List JVal :=
  fun n => if n = 1 then [w1E1] else if n = 2 then [w1E2, w1E3] else []

/-- Page body: entry w1E3 alone, total 25, page size 20. -/
def w8Text2 : String :=
  "\x7b\"code\":200,\"currentData\":\x7b\"records\":\x7b\"result\":[\x7b\"status\":12,\"submitTime\":1690000000,\"problem\":\x7b\"pid\":\"P2\",\"title\":\"B\"\x7d\x7d],\"count\":25,\"perPage\":20\x7d\x7d\x7d"

/-- Page stream of the C8 witness: two pages, the second exhausting the
reported total of 25 at page size 20. -/
def w8Pages : Nat → PageResp :=
  fun n => if n = 1 then .ok 200 w1Text1 none else .ok 200 w8Text2 none

/-- Entry lists of the C8 witness stream. -/
def w8Es : Nat → List JVal :=
  fun n => if n = 1 then [w1E1] else if n = 2 then [w1E3] else []

/-- Page stream of the C9 witness: page 1 good, page 2 a timeout. -/
def w9Pages : Nat → PageResp :=
  fun n => if n = 1 then .ok 200 w1Text1 none else .timeout

/-- Entry lists of the C9 witness stream. -/
def w9Es : Nat → List JVal := fun n => if n = 1 then [w1E1] else []

/-- Page body: entry w1E1 alone, total 1, so the loop stops at page 1. -/
def w7Text : String :=
  "\x7b\"code\":200,\"currentData\":\x7b\"records\":\x7b\"result\":[\x7b\"status\":12,\"submitTime\":1700000000,\"problem\":\x7b\"pid\":\"P1\",\"title\":\"A\"\x7d,\"score\":100\x7d],\"count\":1,\"perPage\":20\x7d\x7d\x7d"

/-- Single-page stream of the C7 witness. -/
def w7Pages : Nat → PageResp := fun _ => .ok 200 w7Text none

/-! Properties of the code-point order used by the per-user sort. -/

theorem charListLe_refl (as : List Char) : charListLe as as = true := by
  induction as with
  | nil => rfl
  | cons a t ih => simp [charListLe, ih]

theorem charListLe_trans :
    ∀ as bs cs, charListLe as bs = true → charListLe bs cs = true →
      charListLe as cs = true := by
  intro as
  induction as with
  | nil => intro bs cs h1 h2; rfl
  | cons a t ih =>
    intro bs cs h1 h2
    cases bs with
    | nil => simp [charListLe] at h1
    | cons b bt =>
      cases cs with
      | nil => simp [charListLe] at h2
      | cons c ct =>
        simp only [charListLe] at h1 h2 ⊢
        split_ifs at h1 h2 ⊢ with hab hbc hac
        all_goals simp_all [decide_eq_true_eq]
        · exact ih bt ct h1 h2
        all_goals omega

theorem charListLe_total (as : List Char) :
    ∀ bs, (charListLe as bs || charListLe bs as) = true := by
  induction as with
  | nil => intro bs; simp [charListLe]
  | cons a t ih =>
    intro bs
    cases bs with
    | nil => simp [charListLe]
    | cons b bt =>
      simp only [charListLe]
      rcases Nat.lt_trichotomy a.toNat b.toNat with hlt | heq | hgt
      · rw [if_neg (by omega), if_neg (by omega)]
        simp [hlt]
      · rw [if_pos heq, if_pos heq.symm]
        exact ih bt
      · rw [if_neg (by omega), if_neg (by omega)]
        simp [hgt]

theorem timeLe_refl (a : SubRec) : timeLe a a = true := charListLe_refl _

theorem timeLe_trans (a b c : SubRec) :
    timeLe a b = true → timeLe b c = true → timeLe a c = true :=
  charListLe_trans _ _ _

theorem timeLe_total (a b : SubRec) : (timeLe a b || timeLe b a) = true :=
  charListLe_total _ _

/-! Properties of the insertion sort. -/

theorem insertLe_perm {a : Type} (le : a → a → Bool) (r : a) :
    ∀ l : List a, (insertLe le r l).Perm (r :: l) := by
  intro l
  induction l with
  | nil => exact List.Perm.refl _
  | cons x xs ih =>
    by_cases h : le r x
    · rw [insertLe, if_pos h]
    · rw [insertLe, if_neg h]
      exact (ih.cons x).trans (List.Perm.swap r x xs)

theorem insSort_perm {a : Type} (le : a → a → Bool) :
    ∀ l : List a, (insSort le l).Perm l := by
  intro l
  induction l with
  | nil => exact List.Perm.refl _
  | cons x xs ih =>
    exact (insertLe_perm le x (insSort le xs)).trans (ih.cons x)

theorem mem_insertLe {a : Type} {le : a → a → Bool} {r y : a} {l : List a}
    (h : y ∈ insertLe le r l) : y = r ∨ y ∈ l :=
  List.mem_cons.mp ((insertLe_perm le r l).mem_iff.mp h)

theorem insertLe_sorted {a : Type} {le : a → a → Bool}
    (htr : ∀ x y z : a, le x y = true → le y z = true → le x z = true)
    (hto : ∀ x y : a, (le x y || le y x) = true) (r : a) :
    ∀ l : List a, (l.Pairwise fun x y => le x y = true) →
      ((insertLe le r l).Pairwise fun x y => le x y = true) := by
  intro l
  induction l with
  | nil => intro _; simp [insertLe]
  | cons x xs ih =>
    intro hs
    have hx := (List.pairwise_cons.mp hs).1
    have hxs := (List.pairwise_cons.mp hs).2
    by_cases h : le r x
    · rw [insertLe, if_pos h]
      refine List.pairwise_cons.mpr ⟨?_, hs⟩
      intro y hy
      rcases List.mem_cons.mp hy with he | hy
      · exact he ▸ h
      · exact htr r x y h (hx y hy)
    · rw [insertLe, if_neg h]
      refine List.pairwise_cons.mpr ⟨?_, ih hxs⟩
      intro y hy
      rcases mem_insertLe hy with he | hy
      · rw [he]
        have hor := hto r x
        rw [Bool.or_eq_true] at hor
        rcases hor with h1 | h1
        · exact absurd h1 h
        · exact h1
      · exact hx y hy

theorem insSort_sorted {a : Type} {le : a → a → Bool}
    (htr : ∀ x y z : a, le x y = true → le y z = true → le x z = true)
    (hto : ∀ x y : a, (le x y || le y x) = true) :
    ∀ l : List a, ((insSort le l).Pairwise fun x y => le x y = true) := by
  intro l
  induction l with
  | nil => simp [insSort]
  | cons x xs ih => exact insertLe_sorted htr hto x _ ih

/-! Properties of the per-user sort and deduplication. -/

theorem sortByTime_perm (rs : List SubRec) : (sortByTime rs).Perm rs :=
  insSort_perm timeLe rs

theorem sortByTime_sorted (rs : List SubRec) :
    (sortByTime rs).Pairwise fun a b => timeLe a b = true :=
  insSort_sorted timeLe_trans timeLe_total rs

theorem dropDupPids_sub :
    ∀ (l : List SubRec) (seen : List String) (r : SubRec),
      r ∈ dropDupPids l seen → r ∈ l := by
  intro l
  induction l with
  | nil => intro seen r h; simp [dropDupPids] at h
  | cons x xs ih =>
    intro seen r h
    by_cases hx : x.problem_id ∈ seen
    · rw [dropDupPids, if_pos hx] at h
      exact List.mem_cons_of_mem _ (ih _ _ h)
    · rw [dropDupPids, if_neg hx] at h
      rcases List.mem_cons.mp h with h | h
      · exact h ▸ List.mem_cons_self _ _
      · exact List.mem_cons_of_mem _ (ih _ _ h)

theorem dropDupPids_not_seen :
    ∀ (l : List SubRec) (seen : List String) (r : SubRec),
      r ∈ dropDupPids l seen → r.problem_id ∉ seen := by
  intro l
  induction l with
  | nil => intro seen r h; simp [dropDupPids] at h
  | cons x xs ih =>
    intro seen r h
    by_cases hx : x.problem_id ∈ seen
    · rw [dropDupPids, if_pos hx] at h
      exact ih _ _ h
    · rw [dropDupPids, if_neg hx] at h
      rcases List.mem_cons.mp h with h | h
      · subst h; exact hx
      · intro hmem
        exact ih _ _ h (List.mem_cons_of_mem _ hmem)

theorem dropDupPids_nodup :
    ∀ (l : List SubRec) (seen : List String),
      ((dropDupPids l seen).map SubRec.problem_id).Nodup := by
  intro l
  induction l with
  | nil => intro seen; simp [dropDupPids]
  | cons x xs ih =>
    intro seen
    by_cases hx : x.problem_id ∈ seen
    · rw [dropDupPids, if_pos hx]
      exact ih _
    · rw [dropDupPids, if_neg hx]
      rw [List.map_cons]
      refine List.Nodup.cons ?_ (ih _)
      intro hmem
      rcases List.mem_map.mp hmem with ⟨r, hr, hpid⟩
      exact dropDupPids_not_seen _ _ _ hr (hpid ▸ List.mem_cons_self _ _)

theorem dropDupPids_min :
    ∀ (l : List SubRec), (l.Pairwise fun a b => timeLe a b = true) →
      ∀ (seen : List String) (r : SubRec), r ∈ dropDupPids l seen →
        ∀ r2 ∈ l, r2.problem_id = r.problem_id → timeLe r r2 = true := by
  intro l
  induction l with
  | nil => intro _ seen r h; simp [dropDupPids] at h
  | cons x xs ih =>
    intro hsort seen r h r2 hr2 hpid
    have hx2 := (List.pairwise_cons.mp hsort).1
    have hxs := (List.pairwise_cons.mp hsort).2
    by_cases hx : x.problem_id ∈ seen
    · rw [dropDupPids, if_pos hx] at h
      rcases List.mem_cons.mp hr2 with he | hr2
      · have hin : r.problem_id ∈ seen := by rw [← hpid, he]; exact hx
        exact absurd hin (dropDupPids_not_seen _ _ _ h)
      · exact ih hxs _ _ h r2 hr2 hpid
    · rw [dropDupPids, if_neg hx] at h
      rcases List.mem_cons.mp h with h | h
      · subst h
        rcases List.mem_cons.mp hr2 with he | hr2
        · exact he ▸ timeLe_refl r
        · exact hx2 r2 hr2
      · rcases List.mem_cons.mp hr2 with he | hr2
        · have hns := dropDupPids_not_seen _ _ _ h
          have hin : r.problem_id ∈ x.problem_id :: seen := by
            rw [← hpid, he]; exact List.mem_cons_self _ _
          exact absurd hin hns
        · exact ih hxs _ _ h r2 hr2 hpid

theorem dropDupPids_all_seen :
    ∀ (l : List SubRec) (seen : List String),
      (∀ r ∈ l, r.problem_id ∈ seen) → dropDupPids l seen = [] := by
  intro l
  induction l with
  | nil => intro seen _; rfl
  | cons x xs ih =>
    intro seen hall
    rw [dropDupPids, if_pos (hall x (List.mem_cons_self _ _))]
    exact ih _ fun r hr => hall r (List.mem_cons_of_mem _ hr)

theorem dedupRecords_sub {rs : List SubRec} {r : SubRec} (h : r ∈ dedupRecords rs) :
    r ∈ rs :=
  (sortByTime_perm rs).mem_iff.mp (dropDupPids_sub _ _ _ h)

theorem dedupRecords_min {rs : List SubRec} {r : SubRec} (h : r ∈ dedupRecords rs) :
    ∀ r2 ∈ rs, r2.problem_id = r.problem_id → timeLe r r2 = true := by
  intro r2 hr2 hpid
  exact dropDupPids_min _ (sortByTime_sorted rs) _ _ h r2
    ((sortByTime_perm rs).mem_iff.mpr hr2) hpid

theorem dedupRecords_nodup (rs : List SubRec) :
    ((dedupRecords rs).map SubRec.problem_id).Nodup :=
  dropDupPids_nodup _ _

theorem dedupRecords_single {rs : List SubRec} {p : String} (hne : rs ≠ [])
    (hall : ∀ r ∈ rs, r.problem_id = p) : (dedupRecords rs).length = 1 := by
  have hlen : (sortByTime rs).length = rs.length := (sortByTime_perm rs).length_eq
  cases hs : sortByTime rs with
  | nil =>
    rw [hs] at hlen
    exact absurd (List.length_eq_zero.mp hlen.symm) hne
  | cons x xs =>
    have hxr : x ∈ rs := (sortByTime_perm rs).mem_iff.mp (hs ▸ List.mem_cons_self _ _)
    unfold dedupRecords
    rw [hs, dropDupPids, if_neg (List.not_mem_nil _)]
    have hnil : dropDupPids xs [x.problem_id] = [] := by
      apply dropDupPids_all_seen
      intro r hr
      have hrr : r ∈ rs :=
        (sortByTime_perm rs).mem_iff.mp (hs ▸ List.mem_cons_of_mem _ hr)
      simp [hall r hrr, hall x hxr]
    simp [hnil]

/-! Properties of the per-user detail rows. -/

theorem detailRows_mem {uid nm : String} {rs : List SubRec} {row : DetailRow}
    (h : row ∈ detailRows uid nm rs) :
    ∃ r ∈ dedupRecords rs, row.pid = r.problem_id ∧ row.title = r.problem_title ∧
      row.acDate = datePartOf r.time ∧ row.acTime = timePartOf r.time := by
  unfold detailRows at h
  rcases List.mem_map.mp h with ⟨p, hp, hrow⟩
  rcases p with ⟨i, r⟩
  have hmem := (List.of_mem_zip hp).2
  exact ⟨r, hmem, by subst hrow; exact ⟨rfl, rfl, rfl, rfl⟩⟩

theorem detailRows_map_seq (uid nm : String) (rs : List SubRec) :
    (detailRows uid nm rs).map DetailRow.seq =
      List.range' 1 (dedupRecords rs).length := by
  unfold detailRows
  rw [List.map_map]
  have h1 : (List.range' 1 (dedupRecords rs).length).length ≤ (dedupRecords rs).length := by
    rw [List.length_range']
  calc ((List.range' 1 (dedupRecords rs).length).zip (dedupRecords rs)).map
        (DetailRow.seq ∘ fun p =>
          { seq := p.1, uid := uid, name := nm, pid := p.2.problem_id,
            title := p.2.problem_title, acDate := datePartOf p.2.time,
            acTime := timePartOf p.2.time })
      = ((List.range' 1 (dedupRecords rs).length).zip (dedupRecords rs)).map Prod.fst := rfl
    _ = List.range' 1 (dedupRecords rs).length := List.map_fst_zip _ _ h1

theorem detailRows_map_pid (uid nm : String) (rs : List SubRec) :
    (detailRows uid nm rs).map DetailRow.pid =
      (dedupRecords rs).map SubRec.problem_id := by
  unfold detailRows
  rw [List.map_map]
  have h1 : (dedupRecords rs).length ≤ (List.range' 1 (dedupRecords rs).length).length := by
    rw [List.length_range']
  calc ((List.range' 1 (dedupRecords rs).length).zip (dedupRecords rs)).map
        (DetailRow.pid ∘ fun p =>
          { seq := p.1, uid := uid, name := nm, pid := p.2.problem_id,
            title := p.2.problem_title, acDate := datePartOf p.2.time,
            acTime := timePartOf p.2.time })
      = ((List.range' 1 (dedupRecords rs).length).zip (dedupRecords rs)).map
          (SubRec.problem_id ∘ Prod.snd) := rfl
    _ = (((List.range' 1 (dedupRecords rs).length).zip (dedupRecords rs)).map
          Prod.snd).map SubRec.problem_id := by rw [List.map_map]
    _ = (dedupRecords rs).map SubRec.problem_id := by rw [List.map_snd_zip _ _ h1]

theorem detailRows_length (uid nm : String) (rs : List SubRec) :
    (detailRows uid nm rs).length = (dedupRecords rs).length := by
  unfold detailRows
  rw [List.length_map, List.length_zip, List.length_range', min_self]

/-- C2: for every per-user record set, the detail rows built by the report
builder have pairwise distinct problem ids; for each row some input record
with that problem id realises the AC date and AC time of the row and is earliest
in the code-point order on time strings among the records with that id; the
sequence numbers are reset to 1..n after deduplication; and a nonempty set
of records all sharing one problem id yields exactly one row. -/
theorem C2_dedup_detail (uid nm : String) (rs : List SubRec) :
    ((detailRows uid nm rs).map DetailRow.pid).Nodup ∧
    ((detailRows uid nm rs).map DetailRow.seq =
      List.range' 1 (detailRows uid nm rs).length) ∧
    (∀ row ∈ detailRows uid nm rs, ∃ r ∈ rs,
      row.pid = r.problem_id ∧ row.acDate = datePartOf r.time ∧
        row.acTime = timePartOf r.time ∧
        ∀ r2 ∈ rs, r2.problem_id = r.problem_id → strLe r.time r2.time = true) ∧
    (∀ p : String, rs ≠ [] → (∀ r ∈ rs, r.problem_id = p) →
      (detailRows uid nm rs).length = 1) := by
  refine ⟨?_, ?_, ?_, ?_⟩
  · rw [detailRows_map_pid]
    exact dedupRecords_nodup rs
  · rw [detailRows_map_seq, detailRows_length]
  · intro row hrow
    rcases detailRows_mem hrow with ⟨r, hr, hpid, _, hdate, htime⟩
    exact ⟨r, dedupRecords_sub hr, hpid, hdate, htime,
      fun r2 hr2 hp2 => dedupRecords_min hr r2 hr2 hp2⟩
  · intro p hne hall
    rw [detailRows_length]
    exact dedupRecords_single hne hall

/-- Witness for C2 at the concrete record set rsW: its single detail row
derives from the record with the earlier time string. -/
theorem C2_dedup_detail_witness :
    ∃ r ∈ rsW, rowW.pid = r.problem_id ∧ rowW.acDate = datePartOf r.time ∧
      rowW.acTime = timePartOf r.time ∧
      ∀ r2 ∈ rsW, r2.problem_id = r.problem_id → strLe r.time r2.time = true :=
  (C2_dedup_detail "100" "Alice" rsW).2.2.1 rowW
    (by rw [show detailRows "100" "Alice" rsW = [rowW] from rfl]
        exact List.mem_singleton.mpr rfl)

/-! Generic facts about mapping over a zip with a sequence-number list. -/

theorem map_zip_right {c a b : Type} (f : c × a → b) (g : a → b)
    (hfg : ∀ i x, f (i, x) = g x) :
    ∀ (l2 : List a) (l1 : List c), l2.length ≤ l1.length →
      (l1.zip l2).map f = l2.map g := by
  intro l2
  induction l2 with
  | nil => intro l1 h; simp
  | cons x xs ih =>
    intro l1 h
    cases l1 with
    | nil => simp at h
    | cons i is =>
      simp only [List.zip_cons_cons, List.map_cons, hfg]
      rw [ih is (by simpa using h)]

theorem map_zip_left {c a b : Type} (f : c × a → b) (g : c → b)
    (hfg : ∀ i x, f (i, x) = g i) :
    ∀ (l1 : List c) (l2 : List a), l1.length ≤ l2.length →
      (l1.zip l2).map f = l1.map g := by
  intro l1
  induction l1 with
  | nil => intro l2 h; simp
  | cons i is ih =>
    intro l2 h
    cases l2 with
    | nil => simp at h
    | cons x xs =>
      simp only [List.zip_cons_cons, List.map_cons, hfg]
      rw [ih xs (by simpa using h)]

/-! Properties of the summary sheet. -/

theorem countGe_trans (x y z : String × String × Nat) :
    countGe x y = true → countGe y z = true → countGe x z = true := by
  simp only [countGe, decide_eq_true_eq]
  omega

theorem countGe_total (x y : String × String × Nat) :
    (countGe x y || countGe y x) = true := by
  simp only [countGe, Bool.or_eq_true, decide_eq_true_eq]
  omega

theorem summaryZip_map_snd (uidMap : List (String × String)) (detail : List DetailRow) :
    ((List.range' 1 (insSort countGe (summaryEntries uidMap detail)).length).zip
      (insSort countGe (summaryEntries uidMap detail))).map Prod.snd =
      insSort countGe (summaryEntries uidMap detail) := by
  rw [map_zip_right Prod.snd id (fun i x => rfl) _ _
    (le_of_eq (List.length_range' _ _ _).symm)]
  exact List.map_id _

theorem summaryEntries_length (uidMap : List (String × String)) (detail : List DetailRow) :
    (insSort countGe (summaryEntries uidMap detail)).length = uidMap.length := by
  rw [(insSort_perm countGe _).length_eq]
  simp [summaryEntries]

theorem summarySheet_mem {uidMap : List (String × String)} {detail : List DetailRow}
    {row : SummaryRow} (h : row ∈ summarySheet uidMap detail) :
    ∃ pr ∈ uidMap, row.uid = pr.1 ∧ row.name = pr.2 ∧
      row.count = acCount detail pr.1 := by
  simp only [summarySheet] at h
  rcases List.mem_map.mp h with ⟨p, hp, hrow⟩
  rcases p with ⟨i, t⟩
  have ht : t ∈ insSort countGe (summaryEntries uidMap detail) := (List.of_mem_zip hp).2
  have ht2 : t ∈ summaryEntries uidMap detail :=
    (insSort_perm countGe _).mem_iff.mp ht
  rcases List.mem_map.mp ht2 with ⟨pr, hpr, hT⟩
  exact ⟨pr, hpr, by subst hrow; subst hT; exact ⟨rfl, rfl, rfl⟩⟩

theorem summarySheet_complete {uidMap : List (String × String)}
    {detail : List DetailRow} {pr : String × String} (h : pr ∈ uidMap) :
    ∃ row ∈ summarySheet uidMap detail, row.uid = pr.1 ∧ row.name = pr.2 ∧
      row.count = acCount detail pr.1 := by
  have ht : (pr.1, pr.2, acCount detail pr.1) ∈ summaryEntries uidMap detail :=
    List.mem_map.mpr ⟨pr, h, rfl⟩
  have ht2 : (pr.1, pr.2, acCount detail pr.1) ∈
      insSort countGe (summaryEntries uidMap detail) :=
    (insSort_perm countGe _).mem_iff.mpr ht
  rw [← summaryZip_map_snd uidMap detail] at ht2
  rcases List.mem_map.mp ht2 with ⟨p, hp, hsnd⟩
  refine ⟨{ seq := p.1, uid := p.2.1, name := p.2.2.1, count := p.2.2.2 },
    List.mem_map.mpr ⟨p, hp, rfl⟩, ?_⟩
  rw [show p.2 = (pr.1, pr.2, acCount detail pr.1) from hsnd]
  exact ⟨rfl, rfl, rfl⟩

theorem summarySheet_uid_perm (uidMap : List (String × String))
    (detail : List DetailRow) :
    ((summarySheet uidMap detail).map SummaryRow.uid).Perm (uidMap.map Prod.fst) := by
  have h1 : (summarySheet uidMap detail).map SummaryRow.uid
      = (insSort countGe (summaryEntries uidMap detail)).map fun t => t.1 := by
    simp only [summarySheet]
    rw [List.map_map]
    exact map_zip_right
      (SummaryRow.uid ∘ fun p : Nat × String × String × Nat =>
        ({ seq := p.1, uid := p.2.1, name := p.2.2.1, count := p.2.2.2 } : SummaryRow))
      (fun t : String × String × Nat => t.1) (fun i x => rfl) _ _
      (le_of_eq (List.length_range' _ _ _).symm)
  rw [h1]
  have h2 : ((insSort countGe (summaryEntries uidMap detail)).map fun t => t.1).Perm
      ((summaryEntries uidMap detail).map fun t => t.1) :=
    (insSort_perm countGe _).map _
  have h3 : (summaryEntries uidMap detail).map (fun t => t.1) = uidMap.map Prod.fst := by
    simp only [summaryEntries]
    rw [List.map_map]
    rfl
  rw [h3] at h2
  exact h2

theorem summarySheet_pairs_perm (uidMap : List (String × String))
    (detail : List DetailRow) :
    ((summarySheet uidMap detail).map fun r => (r.uid, r.name)).Perm uidMap := by
  have h1 : (summarySheet uidMap detail).map (fun r => (r.uid, r.name))
      = (insSort countGe (summaryEntries uidMap detail)).map fun t => (t.1, t.2.1) := by
    simp only [summarySheet]
    rw [List.map_map]
    exact map_zip_right
      ((fun r : SummaryRow => (r.uid, r.name)) ∘ fun p : Nat × String × String × Nat =>
        ({ seq := p.1, uid := p.2.1, name := p.2.2.1, count := p.2.2.2 } : SummaryRow))
      (fun t : String × String × Nat => (t.1, t.2.1)) (fun i x => rfl) _ _
      (le_of_eq (List.length_range' _ _ _).symm)
  rw [h1]
  have h2 : ((insSort countGe (summaryEntries uidMap detail)).map fun t => (t.1, t.2.1)).Perm
      ((summaryEntries uidMap detail).map fun t => (t.1, t.2.1)) :=
    (insSort_perm countGe _).map _
  have h3 : (summaryEntries uidMap detail).map (fun t => (t.1, t.2.1)) = uidMap := by
    simp only [summaryEntries]
    rw [List.map_map]
    exact List.map_id uidMap
  rw [h3] at h2
  exact h2

theorem summarySheet_sorted (uidMap : List (String × String)) (detail : List DetailRow) :
    (summarySheet uidMap detail).Pairwise fun a b => b.count ≤ a.count := by
  have hs : (insSort countGe (summaryEntries uidMap detail)).Pairwise
      fun x y => countGe x y = true :=
    insSort_sorted countGe_trans countGe_total _
  rw [← summaryZip_map_snd uidMap detail] at hs
  have hz := List.pairwise_map.mp hs
  simp only [summarySheet]
  refine List.pairwise_map.mpr ?_
  refine hz.imp ?_
  intro p q hpq
  simpa [countGe, decide_eq_true_eq] using hpq

theorem summarySheet_map_seq (uidMap : List (String × String)) (detail : List DetailRow) :
    (summarySheet uidMap detail).map SummaryRow.seq = List.range' 1 uidMap.length := by
  simp only [summarySheet]
  rw [List.map_map]
  rw [map_zip_left
    (SummaryRow.seq ∘ fun p : Nat × String × String × Nat =>
      ({ seq := p.1, uid := p.2.1, name := p.2.2.1, count := p.2.2.2 } : SummaryRow))
    id (fun i x => rfl) _ _ (le_of_eq (List.length_range' _ _ _))]
  rw [List.map_id, summaryEntries_length]

theorem acCount_nil (uid : String) : acCount [] uid = 0 := rfl

/-- C3: for every name lookup and collection of detail rows, the summary
sheet has exactly the identifiers of the lookup (one row per entry when the keys
are distinct), the count of each row is the number of detail rows bearing its
identifier (zero when none does), rows are sorted by count descending, and
the 1-based sequence numbers are assigned after sorting. -/
theorem C3_summary_completeness (uidMap : List (String × String))
    (detail : List DetailRow) :
    ((summarySheet uidMap detail).map SummaryRow.uid).Perm (uidMap.map Prod.fst) ∧
    ((uidMap.map Prod.fst).Nodup → ((summarySheet uidMap detail).map SummaryRow.uid).Nodup) ∧
    (∀ row ∈ summarySheet uidMap detail,
      row.count = acCount detail row.uid ∧ (row.uid, row.name) ∈ uidMap ∧
        ((∀ d ∈ detail, d.uid ≠ row.uid) → row.count = 0)) ∧
    (∀ pr ∈ uidMap, ∃ row ∈ summarySheet uidMap detail,
      row.uid = pr.1 ∧ row.name = pr.2 ∧ row.count = acCount detail pr.1) ∧
    ((summarySheet uidMap detail).Pairwise fun a b => b.count ≤ a.count) ∧
    ((summarySheet uidMap detail).map SummaryRow.seq = List.range' 1 uidMap.length) := by
  refine ⟨summarySheet_uid_perm uidMap detail, ?_, ?_, ?_,
    summarySheet_sorted uidMap detail, summarySheet_map_seq uidMap detail⟩
  · intro hnd
    exact ((summarySheet_uid_perm uidMap detail).nodup_iff).mpr hnd
  · intro row hrow
    rcases summarySheet_mem hrow with ⟨pr, hpr, huid, hname, hcount⟩
    refine ⟨by rw [hcount, huid], ?_, ?_⟩
    · rw [huid, hname]
      exact hpr
    · intro hnone
      rw [hcount]
      have hnil : detail.filter (fun d => d.uid = pr.1) = [] := by
        apply List.filter_eq_nil_iff.mpr
        intro d hd
        simp only [decide_eq_true_eq]
        rw [← huid]
        exact hnone d hd
      simp [acCount, hnil]
  · intro pr hpr
    exact summarySheet_complete hpr

/-- Witness for C3 at the concrete lookup uidMapW and detail rows detailW:
the identifier 200 with no detail rows still gets a summary row, with the
count of its detail rows. -/
theorem C3_summary_completeness_witness :
    ∃ row ∈ summarySheet uidMapW detailW,
      row.uid = "200" ∧ row.name = "Bob" ∧ row.count = acCount detailW "200" :=
  (C3_summary_completeness uidMapW detailW).2.2.2.1 ("200", "Bob")
    (List.mem_cons_of_mem _ (List.mem_cons_self _ _))

/-- C4 counterexample: with zero record files in the directory the code
returns at analyze_records.py lines 15 to 17 before any writer is opened,
so no output spreadsheet is produced, against the claim. -/
theorem C4_empty_input_counterexample :
    analyze_to_excel [] uidMapW = none := rfl

/-- C4 as amended: the output spreadsheet with an empty detail sheet and an
all-zero summary listing every lookup entry is produced when record files
exist but every one of them fails decoding or holds empty data; with zero
files the function instead returns early without producing output. -/
theorem C4_empty_input_amended (files : List (String × Option (List SubRec)))
    (uidMap : List (String × String)) (hne : files ≠ [])
    (hbad : ∀ pr ∈ files, pr.2 = none ∨ pr.2 = some []) :
    analyze_to_excel files uidMap = some ([], summarySheet uidMap []) ∧
    (∀ row ∈ summarySheet uidMap [], row.count = 0) ∧
    ((summarySheet uidMap []).map fun r => (r.uid, r.name)).Perm uidMap := by
  refine ⟨?_, ?_, summarySheet_pairs_perm uidMap []⟩
  · unfold analyze_to_excel
    rw [if_neg (by simpa [List.isEmpty_iff] using hne)]
    have hblocks : (files.filterMap fun p =>
        match p.2 with
        | none => none
        | some [] => none
        | some rs => some (detailRows p.1 (userNameOf uidMap p.1) rs)) = [] := by
      apply List.filterMap_eq_nil_iff.mpr
      intro p hp
      rcases hbad p hp with h | h <;> rw [h]
    rw [hblocks]
    rfl
  · intro row hrow
    rcases summarySheet_mem hrow with ⟨pr, _, _, _, hcount⟩
    rw [hcount]
    rfl

/-- Witness for C4's amended statement at the concrete directory filesW,
holding one undecodable and one empty record file. -/
theorem C4_empty_input_amended_witness :
    analyze_to_excel filesW uidMapW = some ([], summarySheet uidMapW []) ∧
    (∀ row ∈ summarySheet uidMapW [], row.count = 0) ∧
    ((summarySheet uidMapW []).map fun r => (r.uid, r.name)).Perm uidMapW := by
  refine C4_empty_input_amended filesW uidMapW (by simp [filesW]) ?_
  intro pr hpr
  rw [filesW] at hpr
  rcases List.mem_cons.mp hpr with h | h
  · exact Or.inl (by rw [h])
  · rcases List.mem_cons.mp h with h2 | h2
    · exact Or.inr (by rw [h2])
    · simp at h2

/-! Properties of the entry handling. -/

theorem jvalBeq_eq_num {v : JVal} {n : Int} (h : jvalBeq v (.num n) = true) :
    v = .num n := by
  cases v <;> simp [jvalBeq] at h ⊢
  exact h

theorem entryAfterCutoff_keep {kvs : List (String × JVal)} {r : Rec}
    (h : entryAfterCutoff kvs = .keep r) :
    statusOf kvs = .num 12 ∧ ∃ t, submitTimeOf kvs = .num t ∧ r = recOf kvs t := by
  unfold entryAfterCutoff at h
  by_cases hs : (statusOf kvs != JVal.num 12) = true
  · rw [if_pos hs] at h
    simp at h
  · rw [if_neg hs] at h
    have hb : jvalBeq (statusOf kvs) (.num 12) = true := by
      simpa [bne] using hs
    refine ⟨jvalBeq_eq_num hb, ?_⟩
    cases hst : submitTimeOf kvs with
    | num t =>
      simp only [hst] at h
      cases hp : problemOf kvs with
      | obj pkvs =>
        simp only [hp] at h
        cases h
        exact ⟨t, rfl, rfl⟩
      | null => simp [hp] at h
      | bool b => simp [hp] at h
      | num n => simp [hp] at h
      | str s => simp [hp] at h
      | arr xs => simp [hp] at h
    | null => simp [hst] at h
    | bool b => simp [hst] at h
    | str s => simp [hst] at h
    | arr xs => simp [hst] at h
    | obj kvs2 => simp [hst] at h

theorem entryStep_keep {minTs : Option Int} {e : JVal} {r : Rec}
    (h : entryStep minTs e = .keep r) :
    ∃ kvs, e = .obj kvs ∧ statusOf kvs = .num 12 ∧
      ∃ t, submitTimeOf kvs = .num t ∧ r = recOf kvs t ∧ entryTs e = t ∧
        (∀ ts, minTs = some ts → ts ≤ t) := by
  cases e with
  | obj kvs =>
    simp only [entryStep] at h
    cases minTs with
    | none =>
      rcases entryAfterCutoff_keep h with ⟨h12, t, hst, hr⟩
      exact ⟨kvs, rfl, h12, t, hst, hr, by simp [entryTs, hst], by intro ts hts; cases hts⟩
    | some ts =>
      cases hst : submitTimeOf kvs with
      | num t =>
        simp only [hst] at h
        by_cases hlt : t < ts
        · rw [if_pos hlt] at h
          simp at h
        · rw [if_neg hlt] at h
          rcases entryAfterCutoff_keep h with ⟨h12, t2, hst2, hr⟩
          rw [hst] at hst2
          cases hst2
          refine ⟨kvs, rfl, h12, t, hst, hr, by simp [entryTs, hst], ?_⟩
          intro ts2 hts2
          cases hts2
          omega
      | null => simp [hst] at h
      | bool b => simp [hst] at h
      | str s => simp [hst] at h
      | arr xs => simp [hst] at h
      | obj kvs2 => simp [hst] at h
  | null => simp [entryStep] at h
  | bool b => simp [entryStep] at h
  | num n => simp [entryStep] at h
  | str s => simp [entryStep] at h
  | arr xs => simp [entryStep] at h

theorem entryStep_keep_status {minTs : Option Int} {e : JVal} {r : Rec}
    (h : entryStep minTs e = .keep r) :
    statusIs12 e ∧ r.status = "Accepted" ∧ r = recOfE e := by
  rcases entryStep_keep h with ⟨kvs, he, h12, t, hst, hr, hts, _⟩
  subst he
  refine ⟨⟨kvs, rfl, h12⟩, by rw [hr]; rfl, ?_⟩
  rw [hr]
  simp only [recOfE, hts]

theorem entryStep_keep_ts {ts : Int} {e : JVal} {r : Rec}
    (h : entryStep (some ts) e = .keep r) : ts ≤ entryTs e := by
  rcases entryStep_keep h with ⟨kvs, he, _, t, _, _, hts, hle⟩
  rw [hts]
  exact hle ts rfl

theorem entryStep_notcutoff_ts {ts : Int} {e : JVal}
    (hc : entryStep (some ts) e ≠ .cutoff) (he : entryStep (some ts) e ≠ .err) :
    ts ≤ entryTs e := by
  cases e with
  | obj kvs =>
    cases hst : submitTimeOf kvs with
    | num t =>
      have hc2 : (if t < ts then EStep.cutoff else entryAfterCutoff kvs) ≠ EStep.cutoff := by
        simpa only [entryStep, hst] using hc
      by_cases hlt : t < ts
      · rw [if_pos hlt] at hc2
        exact absurd rfl hc2
      · simp only [entryTs, hst]
        omega
    | null => exact absurd (by simp only [entryStep, hst]) he
    | bool b => exact absurd (by simp only [entryStep, hst]) he
    | str s => exact absurd (by simp only [entryStep, hst]) he
    | arr xs => exact absurd (by simp only [entryStep, hst]) he
    | obj kvs2 => exact absurd (by simp only [entryStep, hst]) he
  | null => exact absurd rfl he
  | bool b => exact absurd rfl he
  | num n => exact absurd rfl he
  | str s => exact absurd rfl he
  | arr xs => exact absurd rfl he

theorem entryStep_keep_of {ts : Int} {e : JVal}
    (he : entryStep (some ts) e ≠ .err) (hge : ts ≤ entryTs e)
    (h12 : statusIs12 e) : entryStep (some ts) e = .keep (recOfE e) := by
  rcases h12 with ⟨kvs, hkvs, h12⟩
  subst hkvs
  cases hst : submitTimeOf kvs with
  | num t =>
    have hT : entryTs (.obj kvs) = t := by simp [entryTs, hst]
    have hb : (statusOf kvs != JVal.num 12) = false := by
      rw [h12]
      rfl
    have hge2 : ¬ t < ts := by rw [hT] at hge; omega
    have he2 : entryAfterCutoff kvs ≠ EStep.err := by
      intro hbad
      apply he
      simp only [entryStep, hst, if_neg hge2]
      exact hbad
    simp only [entryStep, hst, if_neg hge2]
    unfold entryAfterCutoff at he2 ⊢
    rw [if_neg (by simp [hb])] at he2 ⊢
    simp only [hst] at he2 ⊢
    cases hp : problemOf kvs with
    | obj pkvs => simp only [recOfE, hT]
    | null => simp only [hp] at he2; exact absurd rfl he2
    | bool b => simp only [hp] at he2; exact absurd rfl he2
    | num n => simp only [hp] at he2; exact absurd rfl he2
    | str s => simp only [hp] at he2; exact absurd rfl he2
    | arr xs => simp only [hp] at he2; exact absurd rfl he2
  | null => exact absurd (by simp only [entryStep, hst]) he
  | bool b => exact absurd (by simp only [entryStep, hst]) he
  | str s => exact absurd (by simp only [entryStep, hst]) he
  | arr xs => exact absurd (by simp only [entryStep, hst]) he
  | obj kvs2 => exact absurd (by simp only [entryStep, hst]) he

theorem entryStep_cutoff_of {ts : Int} {e : JVal}
    (he : entryStep (some ts) e ≠ .err) (hlt : entryTs e < ts) :
    entryStep (some ts) e = .cutoff := by
  cases e with
  | obj kvs =>
    cases hst : submitTimeOf kvs with
    | num t =>
      have hT : entryTs (.obj kvs) = t := by simp [entryTs, hst]
      simp only [entryStep, hst, if_pos (show t < ts by rw [hT] at hlt; omega)]
    | null => exact absurd (by simp only [entryStep, hst]) he
    | bool b => exact absurd (by simp only [entryStep, hst]) he
    | str s => exact absurd (by simp only [entryStep, hst]) he
    | arr xs => exact absurd (by simp only [entryStep, hst]) he
    | obj kvs2 => exact absurd (by simp only [entryStep, hst]) he
  | null => exact absurd rfl he
  | bool b => exact absurd rfl he
  | num n => exact absurd rfl he
  | str s => exact absurd rfl he
  | arr xs => exact absurd rfl he

/-! Properties of the per-page entry scan. -/

theorem acceptedOf_append (minTs : Option Int) (es1 es2 : List JVal) :
    acceptedOf minTs (es1 ++ es2) = acceptedOf minTs es1 ++ acceptedOf minTs es2 :=
  List.filterMap_append _ _ _

theorem acceptedOf_mem {minTs : Option Int} {es : List JVal} {r : Rec} :
    r ∈ acceptedOf minTs es ↔ ∃ e ∈ es, entryStep minTs e = .keep r := by
  unfold acceptedOf
  rw [List.mem_filterMap]
  constructor
  · rintro ⟨e, he, hf⟩
    refine ⟨e, he, ?_⟩
    cases hstep : entryStep minTs e <;> rw [hstep] at hf <;> simp at hf
    rw [hf]
  · rintro ⟨e, he, hstep⟩
    exact ⟨e, he, by rw [hstep]⟩

theorem scanEntries_done {minTs : Option Int} :
    ∀ (es : List JVal) (acc : List Rec),
      (∀ e ∈ es, entryStep minTs e ≠ .cutoff ∧ entryStep minTs e ≠ .err) →
      scanEntries minTs acc es = .done (acc ++ acceptedOf minTs es) := by
  intro es
  induction es with
  | nil => intro acc _; simp [scanEntries, acceptedOf]
  | cons e es ih =>
    intro acc h
    have he := h e (List.mem_cons_self _ _)
    have hes := fun x hx => h x (List.mem_cons_of_mem _ hx)
    cases hstep : entryStep minTs e with
    | cutoff => exact absurd hstep he.1
    | err => exact absurd hstep he.2
    | skip =>
      rw [scanEntries]
      simp only [hstep]
      rw [ih acc hes]
      simp [acceptedOf, List.filterMap_cons, hstep]
    | keep r =>
      rw [scanEntries]
      simp only [hstep]
      rw [ih (acc ++ [r]) hes]
      simp [acceptedOf, List.filterMap_cons, hstep]

theorem scanEntries_cutoff {minTs : Option Int} :
    ∀ (pre : List JVal) (e0 : JVal) (post : List JVal) (acc : List Rec),
      (∀ e ∈ pre, entryStep minTs e ≠ .cutoff ∧ entryStep minTs e ≠ .err) →
      entryStep minTs e0 = .cutoff →
      scanEntries minTs acc (pre ++ e0 :: post) = .ret (acc ++ acceptedOf minTs pre) := by
  intro pre
  induction pre with
  | nil =>
    intro e0 post acc _ h0
    rw [List.nil_append, scanEntries]
    simp only [h0]
    simp [acceptedOf]
  | cons e es ih =>
    intro e0 post acc h h0
    have he := h e (List.mem_cons_self _ _)
    have hes := fun x hx => h x (List.mem_cons_of_mem _ hx)
    cases hstep : entryStep minTs e with
    | cutoff => exact absurd hstep he.1
    | err => exact absurd hstep he.2
    | skip =>
      rw [List.cons_append, scanEntries]
      simp only [hstep]
      rw [ih e0 post acc hes h0]
      simp [acceptedOf, List.filterMap_cons, hstep]
    | keep r =>
      rw [List.cons_append, scanEntries]
      simp only [hstep]
      rw [ih e0 post (acc ++ [r]) hes h0]
      simp [acceptedOf, List.filterMap_cons, hstep]

theorem scanEntries_recs_prov {minTs : Option Int} :
    ∀ (es : List JVal) (acc : List Rec) (r : Rec),
      r ∈ (scanEntries minTs acc es).recs →
      r ∈ acc ∨ ∃ e ∈ es, entryStep minTs e = .keep r := by
  intro es
  induction es with
  | nil =>
    intro acc r h
    exact Or.inl (by simpa [scanEntries, ScanRes.recs] using h)
  | cons e es ih =>
    intro acc r h
    rw [scanEntries] at h
    cases hstep : entryStep minTs e with
    | cutoff =>
      simp only [hstep] at h
      exact Or.inl (by simpa [ScanRes.recs] using h)
    | err =>
      simp only [hstep] at h
      exact Or.inl (by simpa [ScanRes.recs] using h)
    | skip =>
      simp only [hstep] at h
      rcases ih acc r h with hin | ⟨e2, he2, hk⟩
      · exact Or.inl hin
      · exact Or.inr ⟨e2, List.mem_cons_of_mem _ he2, hk⟩
    | keep r2 =>
      simp only [hstep] at h
      rcases ih (acc ++ [r2]) r h with hin | ⟨e2, he2, hk⟩
      · rcases List.mem_append.mp hin with hin | hin
        · exact Or.inl hin
        · refine Or.inr ⟨e, List.mem_cons_self _ _, ?_⟩
          rw [← List.mem_singleton.mp hin] at hstep
          exact hstep
      · exact Or.inr ⟨e2, List.mem_cons_of_mem _ he2, hk⟩

/-! Properties of one loop iteration and of the whole loop. -/

theorem stepPage_stop_of_view {minTs : Option Int} {page : Nat} {acc : List Rec}
    {resp : PageResp} (h : pageView resp = .stop) :
    stepPage minTs page acc resp = .stop acc := by
  simp only [stepPage, h]

theorem pageView_transport_fail {resp : PageResp}
    (h : resp = .timeout ∨ resp = .netError ∨
      ∃ sc text fs, resp = .ok sc text fs ∧ sc ≠ 200) :
    pageView resp = .stop := by
  rcases h with h | h | ⟨sc, text, fs, h, hsc⟩
  · rw [h]; rfl
  · rw [h]; rfl
  · subst h
    simp only [pageView]
    rw [if_pos hsc]

theorem stepPage_recs_of_view {minTs : Option Int} {page : Nat} {acc : List Rec}
    {resp : PageResp} {es : List JVal} {rkvs : List (String × JVal)}
    (h : pageView resp = .proceed es rkvs) :
    (stepPage minTs page acc resp).recs = (scanEntries minTs acc es).recs := by
  simp only [stepPage, h]
  cases hscan : scanEntries minTs acc es with
  | ret recs => simp [ScanRes.recs, StepRes.recs]
  | err recs => simp [ScanRes.recs, StepRes.recs]
  | done recs =>
    simp only [ScanRes.recs]
    cases hps : paginationStop page rkvs with
    | none => simp [StepRes.recs]
    | some b => cases b <;> simp [StepRes.recs]

theorem paginationStop_num {page : Nat} {rkvs : List (String × JVal)} {c p : Int}
    (hc : countOf rkvs = .num c) (hp : perPageOf rkvs = .num p) :
    paginationStop page rkvs = some (decide (c ≤ (page : Int) * p)) := by
  unfold paginationStop
  rw [show pyGetD rkvs "count" (.num 0) = JVal.num c from hc,
    show pyGetD rkvs "perPage" (.num 20) = JVal.num p from hp]

theorem stepPage_next {pages : Nat → PageResp} {minTs : Option Int}
    {es : Nat → List JVal} {n : Nat} (hgood : goodNextPage pages minTs es n)
    (acc : List Rec) :
    stepPage minTs n acc (pages n) = .next (acc ++ acceptedOf minTs (es n)) := by
  rcases hgood with ⟨rkvs, hview, hok, c, p, hc, hp, hlt⟩
  simp only [stepPage, hview]
  rw [scanEntries_done (es n) acc hok, paginationStop_num hc hp]
  have hdec : decide (c ≤ (n : Int) * p) = false := by
    rw [decide_eq_false_iff_not]
    omega
  simp only [hdec]

theorem fetchLoop_run {pages : Nat → PageResp} {minTs : Option Int}
    {es : Nat → List JVal} :
    ∀ (len fuel page : Nat) (acc : List Rec), len ≤ fuel →
      (∀ n, page ≤ n → n < page + len → goodNextPage pages minTs es n) →
      fetchLoop pages minTs fuel page acc =
        fetchLoop pages minTs (fuel - len) (page + len)
          (acc ++ acceptedOf minTs (catFrom es page len)) := by
  intro len
  induction len with
  | zero =>
    intro fuel page acc _ _
    simp [catFrom, acceptedOf]
  | succ len ih =>
    intro fuel page acc hfuel hgood
    cases fuel with
    | zero => omega
    | succ f =>
      rw [fetchLoop]
      simp only [stepPage_next (hgood page (le_refl page) (by omega)) acc]
      rw [ih f (page + 1) (acc ++ acceptedOf minTs (es page)) (by omega)
        (fun n h1 h2 => hgood n (by omega) (by omega))]
      have hcat : catFrom es page (len + 1) = es page ++ catFrom es (page + 1) len := by
        unfold catFrom
        rw [List.range'_succ, List.map_cons, List.flatten_cons]
      rw [hcat, acceptedOf_append, List.append_assoc]
      have harith1 : f - len = f + 1 - (len + 1) := by omega
      have harith2 : page + 1 + len = page + (len + 1) := by omega
      rw [harith1, harith2]

theorem fetchLoop_recs_prov {pages : Nat → PageResp} {minTs : Option Int} :
    ∀ (fuel page : Nat) (acc : List Rec) (r : Rec),
      r ∈ (fetchLoop pages minTs fuel page acc).recs →
      r ∈ acc ∨ ∃ n, page ≤ n ∧ ∃ es rkvs, pageView (pages n) = .proceed es rkvs ∧
        ∃ e ∈ es, entryStep minTs e = .keep r := by
  intro fuel
  induction fuel with
  | zero =>
    intro page acc r h
    exact Or.inl (by simpa [fetchLoop, FetchOut.recs] using h)
  | succ f ih =>
    intro page acc r h
    rw [fetchLoop] at h
    cases hview : pageView (pages page) with
    | stop =>
      rw [stepPage_stop_of_view hview] at h
      exact Or.inl (by simpa [FetchOut.recs] using h)
    | proceed es rkvs =>
      have hprov : r ∈ (scanEntries minTs acc es).recs →
          r ∈ acc ∨ ∃ n, page ≤ n ∧ ∃ es2 rkvs2,
            pageView (pages n) = .proceed es2 rkvs2 ∧
            ∃ e ∈ es2, entryStep minTs e = .keep r := by
        intro hr
        rcases scanEntries_recs_prov es acc r hr with hin | ⟨e, he, hk⟩
        · exact Or.inl hin
        · exact Or.inr ⟨page, le_refl _, es, rkvs, hview, e, he, hk⟩
      cases hstep : stepPage minTs page acc (pages page) with
      | stop recs =>
        rw [hstep] at h
        have hrecs : recs = (scanEntries minTs acc es).recs := by
          have h2 := @stepPage_recs_of_view minTs page acc (pages page) es rkvs hview
          rw [hstep] at h2
          exact h2
        refine hprov ?_
        rw [← hrecs]
        simpa [FetchOut.recs] using h
      | next recs =>
        rw [hstep] at h
        rcases ih (page + 1) recs r h with hin | ⟨n, hn, rest⟩
        · have hrecs : recs = (scanEntries minTs acc es).recs := by
            have h2 := @stepPage_recs_of_view minTs page acc (pages page) es rkvs hview
            rw [hstep] at h2
            exact h2
          exact hprov (hrecs ▸ hin)
        · exact Or.inr ⟨n, by omega, rest⟩

/-! Small helpers for discharging entry conditions at concrete inputs. -/

theorem keep_ne_cutoff_err {minTs : Option Int} {e : JVal} {r : Rec}
    (h : entryStep minTs e = .keep r) :
    entryStep minTs e ≠ .cutoff ∧ entryStep minTs e ≠ .err := by
  rw [h]
  exact ⟨fun hh => EStep.noConfusion hh, fun hh => EStep.noConfusion hh⟩

theorem skip_ne_cutoff_err {minTs : Option Int} {e : JVal}
    (h : entryStep minTs e = .skip) :
    entryStep minTs e ≠ .cutoff ∧ entryStep minTs e ≠ .err := by
  rw [h]
  exact ⟨fun hh => EStep.noConfusion hh, fun hh => EStep.noConfusion hh⟩

theorem mem_catFrom {es : Nat → List JVal} {a len : Nat} {e : JVal}
    (h : e ∈ catFrom es a len) : ∃ n, a ≤ n ∧ n < a + len ∧ e ∈ es n := by
  unfold catFrom at h
  rcases List.mem_flatten.mp h with ⟨l, hl, hel⟩
  rcases List.mem_map.mp hl with ⟨n, hn, hln⟩
  have hr := List.mem_range'_1.mp hn
  exact ⟨n, hr.1, hr.2, hln ▸ hel⟩

/-- C7: at every point of the fetch loop (any fuel bound, hence any prefix
of the run), every record in the output carries the fixed status value
Accepted and originates from an entry of some fetched page whose status
code equals the Accepted code 12 of the judge. -/
theorem C7_status_filter (pages : Nat → PageResp) (minDate : Option String) (fuel : Nat) :
    ∀ r ∈ (get_records pages minDate fuel).recs,
      r.status = "Accepted" ∧
      ∃ n, 1 ≤ n ∧ ∃ es rkvs, pageView (pages n) = .proceed es rkvs ∧
        ∃ e ∈ es, entryStep (minDate.bind parseMinDate) e = .keep r ∧ statusIs12 e := by
  intro r hr
  unfold get_records at hr
  rcases fetchLoop_recs_prov fuel 1 [] r hr with hin | ⟨n, hn, es, rkvs, hview, e, he, hk⟩
  · simp at hin
  · have hks := entryStep_keep_status hk
    exact ⟨hks.2.1, n, hn, es, rkvs, hview, e, he, hk, hks.1⟩

/-- Witness for C7 on the concrete single-page stream w7Pages. -/
theorem C7_status_filter_witness :
    (recOfE w1E1).status = "Accepted" ∧
    ∃ n, 1 ≤ n ∧ ∃ es rkvs, pageView (w7Pages n) = .proceed es rkvs ∧
      ∃ e ∈ es, entryStep ((none : Option String).bind parseMinDate) e = .keep (recOfE w1E1) ∧
        statusIs12 e :=
  C7_status_filter w7Pages none 3 (recOfE w1E1)
    (by rw [show (get_records w7Pages none 3).recs = [recOfE w1E1] from rfl]
        exact List.mem_singleton.mpr rfl)

/-- C10: a min_date string that strptime rejects is ignored: the fetch run
is exactly the run with no min_date at all (no filtering, no cutoff-based
early stop). -/
theorem C10_invalid_min_date (s : String) (hs : parseMinDate s = none)
    (pages : Nat → PageResp) (fuel : Nat) :
    get_records pages (some s) fuel = get_records pages none fuel := by
  unfold get_records
  show fetchLoop pages (parseMinDate s) fuel 1 [] = fetchLoop pages none fuel 1 []
  rw [hs]

/-- Witness for C10 at a concrete unparsable date string. -/
theorem C10_invalid_min_date_witness :
    parseMinDate "not-a-date" = none ∧
    get_records (fun _ => PageResp.timeout) (some "not-a-date") 3 =
      get_records (fun _ => PageResp.timeout) none 3 :=
  ⟨rfl, C10_invalid_min_date "not-a-date" rfl _ 3⟩

/-- C5: a response that fails direct JSON decoding but carries the marker
script with a URL-encoded payload yields exactly the data a direct-JSON
response decoding to the same value yields, so the whole per-page
processing, and with it the extracted record set, agrees between the two
response shapes. -/
theorem C5_fallback_equivalence (textA textB script enc : String)
    (fsA : Option String) (v : JVal)
    (hA : parseJson textA = some v) (hB : parseJson textB = none)
    (hS : extractPayload script = some enc)
    (hD : parseJson (unquote enc) = some v) :
    decodeData textB (some script) = some v ∧
    decodeData textA fsA = some v ∧
    pageView (.ok 200 textB (some script)) = pageView (.ok 200 textA fsA) ∧
    ∀ minTs page acc, stepPage minTs page acc (.ok 200 textB (some script)) =
      stepPage minTs page acc (.ok 200 textA fsA) := by
  have h1 : decodeData textB (some script) = some v := by
    simp only [decodeData, hB, hS, hD]
  have h2 : decodeData textA fsA = some v := by
    simp only [decodeData, hA]
  have h3 : pageView (.ok 200 textB (some script)) = pageView (.ok 200 textA fsA) := by
    simp [pageView, h1, h2]
  exact ⟨h1, h2, h3, fun minTs page acc => by unfold stepPage; rw [h3]⟩

/-- Witness for C5 at a concrete page pair: an HTML body with the encoded
payload against the payload served directly. -/
theorem C5_fallback_equivalence_witness :
    decodeData w5TextB (some w5Script) = some w5Val ∧
    decodeData w5TextA none = some w5Val ∧
    pageView (.ok 200 w5TextB (some w5Script)) = pageView (.ok 200 w5TextA none) ∧
    ∀ minTs page acc, stepPage minTs page acc (.ok 200 w5TextB (some w5Script)) =
      stepPage minTs page acc (.ok 200 w5TextA none) :=
  C5_fallback_equivalence w5TextA w5TextB w5Script w5Enc none w5Val rfl rfl rfl rfl

/-- C6 counterexample: this page decodes to an object without the
currentData key, yet the loop body stops with an API-error break instead of
falling back to the top-level object, although that object used as the
record container would have yielded an Accepted entry. -/
theorem C6_missing_key_counterexample :
    decodeData c6Text none = some (.obj c6Kvs) ∧
    assocLast c6Kvs "currentData" = none ∧
    pageView (.ok 200 c6Text none) = .stop ∧
    pageContainerView (.obj c6Kvs) = .proceed [c6Entry] c6Rkvs ∧
    PageView.stop ≠ PageView.proceed [c6Entry] c6Rkvs := by
  refine ⟨rfl, rfl, rfl, rfl, ?_⟩
  intro h
  exact PageView.noConfusion h

/-- C6 as amended: when the decoded page object lacks the currentData key,
the loop body falls back to treating the top-level object as the record
container only if the code field of the object field equals 200; with any other code
value it breaks as an API error. -/
theorem C6_missing_key_amended (text : String) (fs : Option String)
    (kvs : List (String × JVal)) (hdec : decodeData text fs = some (.obj kvs))
    (hnoCD : assocLast kvs "currentData" = none)
    (hcode : assocLast kvs "code" = some (.num 200)) :
    pageView (.ok 200 text fs) = pageContainerView (.obj kvs) := by
  simp only [pageView]
  rw [if_neg (show ¬ (200 : Nat) ≠ 200 from by omega)]
  simp only [hdec, hcode, pyGetD, hnoCD]
  simp [truthy]

/-- Witness for C6's amended statement: the counterexample page with its
code changed to 200 is processed with the top-level object as container. -/
theorem C6_missing_key_amended_witness :
    pageView (.ok 200 c6OkText none) = pageContainerView (.obj c6OkKvs) :=
  C6_missing_key_amended c6OkText none c6OkKvs rfl rfl rfl

/-- C9: when pages before k advance normally and the request for page k
fails at the transport level (timeout, network error, or a non-success
status code), the loop ends at page k — the fetch function is total, so no
exception escapes — and returns exactly the records accumulated from pages
1 through k - 1. -/
theorem C9_transport_failure (pages : Nat → PageResp) (minDate : Option String)
    (minTs : Option Int) (es : Nat → List JVal) (k fuel : Nat)
    (hmt : minDate.bind parseMinDate = minTs) (hk : 1 ≤ k)
    (hgood : ∀ n, 1 ≤ n → n < k → goodNextPage pages minTs es n)
    (hfail : pages k = .timeout ∨ pages k = .netError ∨
      ∃ sc text fs, pages k = .ok sc text fs ∧ sc ≠ 200)
    (hfuel : k ≤ fuel) :
    get_records pages minDate fuel = .out (acceptedOf minTs (catFrom es 1 (k - 1))) k := by
  unfold get_records
  rw [hmt]
  rw [fetchLoop_run (k - 1) fuel 1 [] (by omega) (fun n h1 h2 => hgood n h1 (by omega))]
  have h1k : 1 + (k - 1) = k := by omega
  rw [h1k]
  obtain ⟨f, hf⟩ : ∃ f, fuel - (k - 1) = f + 1 := ⟨fuel - (k - 1) - 1, by omega⟩
  rw [hf, fetchLoop]
  simp only [stepPage_stop_of_view (pageView_transport_fail hfail)]
  rw [List.nil_append]

/-- Witness for C9: one good page, then a timeout on page 2. -/
theorem C9_transport_failure_witness :
    get_records w9Pages none 2 = .out (acceptedOf none (catFrom w9Es 1 1)) 2 := by
  refine C9_transport_failure w9Pages none none w9Es 2 2 rfl (by omega) ?_ (Or.inl rfl)
    (by omega)
  intro n h1 h2
  have hn : n = 1 := by omega
  subst hn
  refine ⟨w1Rkvs1, rfl, ?_, 25, 20, rfl, rfl, by norm_num⟩
  intro e he
  rw [List.mem_singleton.mp he]
  exact keep_ne_cutoff_err (show entryStep none w1E1 = .keep (recOfE w1E1) from rfl)

/-- C8: for a page stream reporting one total count and one positive page
size, the pagination loop stops exactly at the first page N whose index
times the page size meets or exceeds the count: the run is independent of
any fuel bound of at least N (termination), the last requested page is N,
and every earlier page advanced the counter by exactly one. -/
theorem C8_pagination_termination (pages : Nat → PageResp) (minDate : Option String)
    (minTs : Option Int) (es : Nat → List JVal) (rkvsF : Nat → List (String × JVal))
    (c p : Int) (N : Nat)
    (hmt : minDate.bind parseMinDate = minTs)
    (hN : 1 ≤ N) (hp : 0 < p)
    (hview : ∀ n, 1 ≤ n → n ≤ N → pageView (pages n) = .proceed (es n) (rkvsF n) ∧
      countOf (rkvsF n) = .num c ∧ perPageOf (rkvsF n) = .num p ∧
      (∀ e ∈ es n, entryStep minTs e ≠ .cutoff ∧ entryStep minTs e ≠ .err))
    (hbefore : ∀ n, 1 ≤ n → n < N → (n : Int) * p < c)
    (hstop : c ≤ (N : Int) * p)
    (fuel : Nat) (hfuel : N ≤ fuel) :
    get_records pages minDate fuel = .out (acceptedOf minTs (catFrom es 1 N)) N := by
  unfold get_records
  rw [hmt]
  rw [fetchLoop_run (N - 1) fuel 1 [] (by omega) (fun n h1 h2 => by
    rcases hview n h1 (by omega) with ⟨hv, hc, hpp, hok⟩
    exact ⟨rkvsF n, hv, hok, c, p, hc, hpp, hbefore n h1 (by omega)⟩)]
  have h1k : 1 + (N - 1) = N := by omega
  rw [h1k]
  obtain ⟨f, hf⟩ : ∃ f, fuel - (N - 1) = f + 1 := ⟨fuel - (N - 1) - 1, by omega⟩
  rw [hf, fetchLoop]
  rcases hview N hN (le_refl N) with ⟨hv, hc, hpp, hok⟩
  have hstep : stepPage minTs N ([] ++ acceptedOf minTs (catFrom es 1 (N - 1))) (pages N) =
      .stop (([] ++ acceptedOf minTs (catFrom es 1 (N - 1))) ++ acceptedOf minTs (es N)) := by
    simp only [stepPage, hv]
    rw [scanEntries_done (es N) _ hok, paginationStop_num hc hpp]
    have hdec : decide (c ≤ (N : Int) * p) = true := by
      simp only [decide_eq_true_eq]
      omega
    simp only [hdec]
  simp only [hstep]
  rw [List.nil_append]
  have hcat : catFrom es 1 N = catFrom es 1 (N - 1) ++ es N := by
    unfold catFrom
    rw [show N = (N - 1) + 1 from by omega, List.range'_concat]
    rw [show 1 + 1 * (N - 1) = (N - 1) + 1 from by omega]
    rw [List.map_append, List.flatten_append]
    simp
  rw [hcat, acceptedOf_append]

/-- Witness for C8: total 25 at page size 20, so the run stops exactly at
page 2 for every sufficient fuel bound. -/
theorem C8_pagination_termination_witness :
    get_records w8Pages none 2 = .out (acceptedOf none (catFrom w8Es 1 2)) 2 := by
  refine C8_pagination_termination w8Pages none none w8Es
    (fun n => if n = 1 then w1Rkvs1 else w8Rkvs2) 25 20 2 rfl (by omega) (by norm_num)
    ?_ ?_ (by norm_num) 2 (by omega)
  · intro n h1 h2
    match n, h1, h2 with
    | 1, _, _ =>
      refine ⟨rfl, rfl, rfl, ?_⟩
      intro e he
      rw [List.mem_singleton.mp he]
      exact keep_ne_cutoff_err (show entryStep none w1E1 = .keep (recOfE w1E1) from rfl)
    | 2, _, _ =>
      refine ⟨rfl, rfl, rfl, ?_⟩
      intro e he
      rw [List.mem_singleton.mp he]
      exact keep_ne_cutoff_err (show entryStep none w1E3 = .keep (recOfE w1E3) from rfl)
  · intro n h1 h2
    have hn : n = 1 := by omega
    subst hn
    norm_num

/-- C1: with a parsable min_date (cutoff = start of that calendar day) and
a page stream whose flattened entries are in descending submission-time
order, where page k holds the first entry older than the cutoff, the run
stops at page k: it requests no later page, its output is determined by the
entries strictly before that first old entry, every output record stems
from an entry at or after the cutoff, and every Accepted entry at or after
the cutoff contributes its record to the output. -/
theorem C1_date_cutoff (pages : Nat → PageResp) (md : String) (ts : Int)
    (es : Nat → List JVal) (k : Nat) (preK postK : List JVal) (e0 : JVal)
    (rkvsK : List (String × JVal)) (fuel : Nat)
    (hts : parseMinDate md = some ts) (hk : 1 ≤ k)
    (hgood : ∀ n, 1 ≤ n → n < k → goodNextPage pages (some ts) es n)
    (hkview : pageView (pages k) = .proceed (es k) rkvsK)
    (hsplit : es k = preK ++ e0 :: postK)
    (hpre : ∀ e ∈ preK, entryStep (some ts) e ≠ .cutoff ∧ entryStep (some ts) e ≠ .err)
    (he0e : entryStep (some ts) e0 ≠ .err) (he0old : entryTs e0 < ts)
    (hdesc : (catFrom es 1 (k - 1) ++ es k).Pairwise fun a b => entryTs b ≤ entryTs a)
    (hfuel : k ≤ fuel) :
    get_records pages (some md) fuel =
      .out (acceptedOf (some ts) (catFrom es 1 (k - 1) ++ preK)) k ∧
    (∀ r ∈ acceptedOf (some ts) (catFrom es 1 (k - 1) ++ preK),
      ∃ e ∈ catFrom es 1 (k - 1) ++ preK,
        entryStep (some ts) e = .keep r ∧ ts ≤ entryTs e) ∧
    (∀ e ∈ catFrom es 1 (k - 1) ++ es k, statusIs12 e → ts ≤ entryTs e →
      recOfE e ∈ acceptedOf (some ts) (catFrom es 1 (k - 1) ++ preK)) := by
  refine ⟨?_, ?_, ?_⟩
  · unfold get_records
    rw [show Option.bind (some md) parseMinDate = some ts from hts]
    rw [fetchLoop_run (k - 1) fuel 1 [] (by omega) (fun n h1 h2 => hgood n h1 (by omega))]
    have h1k : 1 + (k - 1) = k := by omega
    rw [h1k]
    obtain ⟨f, hf⟩ : ∃ f, fuel - (k - 1) = f + 1 := ⟨fuel - (k - 1) - 1, by omega⟩
    rw [hf, fetchLoop]
    have hstep : stepPage (some ts) k ([] ++ acceptedOf (some ts) (catFrom es 1 (k - 1)))
        (pages k) =
        .stop (([] ++ acceptedOf (some ts) (catFrom es 1 (k - 1))) ++
          acceptedOf (some ts) preK) := by
      simp only [stepPage, hkview, hsplit]
      rw [scanEntries_cutoff preK e0 postK _ hpre (entryStep_cutoff_of he0e he0old)]
    simp only [hstep]
    rw [List.nil_append, ← acceptedOf_append]
  · intro r hr
    rcases acceptedOf_mem.mp hr with ⟨e, he, hkp⟩
    exact ⟨e, he, hkp, entryStep_keep_ts hkp⟩
  · intro e he h12 hge
    rw [hsplit, ← List.append_assoc] at he
    rcases List.mem_append.mp he with heP | heTail
    · have hne : entryStep (some ts) e ≠ .err := by
        rcases List.mem_append.mp heP with heC | hePre
        · rcases mem_catFrom heC with ⟨n, hn1, hn2, hen⟩
          rcases hgood n hn1 (by omega) with ⟨rkvs2, _, hok, _⟩
          exact (hok e hen).2
        · exact (hpre e hePre).2
      exact acceptedOf_mem.mpr ⟨e, heP, entryStep_keep_of hne hge h12⟩
    · have hdesc2 : ((catFrom es 1 (k - 1) ++ preK) ++ e0 :: postK).Pairwise
          fun a b => entryTs b ≤ entryTs a := by
        rw [List.append_assoc]
        rw [hsplit] at hdesc
        exact hdesc
      have htail := (List.pairwise_append.mp hdesc2).2.1
      rcases List.mem_cons.mp heTail with he0 | hpost
      · rw [he0] at hge
        omega
      · have := (List.pairwise_cons.mp htail).1 e hpost
        omega

/-- Witness for C1: cutoff 2023-11-01, page 1 all newer, page 2 one newer
non-accepted entry followed by the first older entry; the run stops at
page 2 with the records of the prefix before the old entry. -/
theorem C1_date_cutoff_witness :
    get_records w1Pages (some "2023-11-01") 2 =
      .out (acceptedOf (some 1698796800) (catFrom w1Es 1 1 ++ [w1E2])) 2 := by
  refine (C1_date_cutoff w1Pages "2023-11-01" 1698796800 w1Es 2 [w1E2] [] w1E3
    w1Rkvs2 2 rfl (by omega) ?_ rfl rfl ?_ ?_ (by decide) ?_ (by omega)).1
  · intro n h1 h2
    have hn : n = 1 := by omega
    subst hn
    refine ⟨w1Rkvs1, rfl, ?_, 25, 20, rfl, rfl, by norm_num⟩
    intro e he
    rw [List.mem_singleton.mp he]
    exact keep_ne_cutoff_err
      (show entryStep (some 1698796800) w1E1 = .keep (recOfE w1E1) from rfl)
  · intro e he
    rw [List.mem_singleton.mp he]
    exact skip_ne_cutoff_err (show entryStep (some 1698796800) w1E2 = .skip from rfl)
  · rw [show entryStep (some 1698796800) w1E3 = .cutoff from rfl]
    exact fun hh => EStep.noConfusion hh
  · show ((catFrom w1Es 1 1 ++ w1Es 2).Pairwise fun a b => entryTs b ≤ entryTs a)
    rw [show catFrom w1Es 1 1 ++ w1Es 2 = [w1E1, w1E2, w1E3] from rfl]
    refine List.Pairwise.cons ?_ (List.Pairwise.cons ?_ (List.pairwise_singleton _ _))
    · intro e he
      rcases List.mem_cons.mp he with h | h
      · rw [h]; decide
      · rw [List.mem_singleton.mp h]; decide
    · intro e he
      rw [List.mem_singleton.mp he]
      decide
